import Mathlib

/-!
Shallow embedding of the BGP route-propagation and decision engine of
`src/bgp/bgp.py` (repository Aperence/network-simulations), together with
theorems settling the claims C1..C10 about it.

Conventions of the embedding:
* Python dicts become association lists (`aget`/`aset`) so that insertion
  order — which the source iterates over — is preserved and equality is
  decidable.
* Python sets of routes become duplicate-free lists; `set.add` is an
  append guarded by membership, `set.remove` is `List.erase`.
* The mutually recursive `announce_route`/`update`/`withdraw` procedures
  become one structurally recursive function `engine` over an explicit
  fuel bounding the recursion depth; fuel 0 returns the state unchanged.
* Partial lookups that would raise `KeyError` in Python are totalised with
  defaults; theorems that depend on a lookup add the hypothesis that the
  lookup succeeds.  The one `KeyError` a claim depends on — reading the
  `med` attribute of an internal edge in `announce_prefix` — is modelled
  by an `Option` result.
* The source field `BGPRoute.prefix` is named `pfx` here, and
  `announce_prefix` is named `announce_pfx` (naming restrictions of this
  development); all other names follow the source.
* A ghost `trace` field records every `announce_route` invocation
  (route, receiver, sender, kind), mirroring the log call at
  `src/bgp/bgp.py:200`; it is never read by the engine.
-/

namespace BGPSim

/-- `BGPRoute` of `src/bgp/bgp.py:7-24`. `pfx` is the source's `prefix`
field; `as_path` is the tuple of AS numbers, `src` the `"ebgp"`/`"ibgp"`
tag (kept as a string exactly as in the source). -/
structure BGPRoute where
  pfx : String
  nexthop : String
  as_path : List Int
  pref : Int
  med : Int
  router_id : Int
  src : String
deriving DecidableEq

/-- `BGPMessage` of `src/bgp/bgp.py:26-28`. -/
inductive BGPMessage
  | UPDATE
  | WITHDRAW
deriving DecidableEq

/-- Node attributes stored by `add_router` on `self.network`
(`src/bgp/bgp.py:42`): the AS number and the router id. -/
structure NodeData where
  as_num : Int
  id : Int
deriving DecidableEq

/-- Attribute dict of an edge of `self.network`.  External edges carry
`type` and `med`, internal edges `type` and `cost`; since networkx merges
attribute dicts on repeated `add_edge`, `med` and `cost` are `Option`s. -/
structure EdgeData where
  type : String
  med : Option Int
  cost : Option Int
deriving DecidableEq

/-- The per-AS internal graph `self.AS[AS]` (`src/bgp/bgp.py:40-41,59-63`):
nodes are addresses `10.0.<AS>.<id>` carrying the router name, edges carry
the IGP weight. A node auto-created by `add_edge` gets the empty name. -/
structure ASGraph where
  nodes : List (String × String)
  edges : List ((String × String) × Int)
deriving DecidableEq

/-- A recorded `announce_route` invocation: (route, receiver, sender, kind),
mirroring the entry log of `src/bgp/bgp.py:200`. -/
abbrev TraceEntry := BGPRoute × String × String × BGPMessage

/-- The whole simulator state of `BGPNetwork.__init__` (`src/bgp/bgp.py:31-37`):
router attributes, the directed relationship graph, the per-AS internal
graphs, and the BGP tables.  `trace` is ghost instrumentation. -/
structure BGPNetwork where
  routers : List (String × NodeData)
  edges : List ((String × String) × EdgeData)
  asGraphs : List (Int × ASGraph)
  bgp_tables : List (String × List (String × List BGPRoute))
  trace : List TraceEntry
deriving DecidableEq

/-- Association-list lookup (Python dict access). -/
def aget {κ β : Type} [DecidableEq κ] : List (κ × β) → κ → Option β
  | [], _ => none
  | (a, b) :: t, k => if a = k then some b else aget t k

/-- Association-list update (Python dict assignment): replaces the first
binding of the key in place, else appends — exactly the insertion-order
semantics of a Python dict. -/
def aset {κ β : Type} [DecidableEq κ] : List (κ × β) → κ → β → List (κ × β)
  | [], k, v => [(k, v)]
  | (a, b) :: t, k, v => if a = k then (k, v) :: t else (a, b) :: aset t k v

def emptyNet : BGPNetwork := ⟨[], [], [], [], []⟩

/-- Adjacency view `self.network.adj[r]`: the out-edges of `r` in insertion
order. -/
def adjOf (net : BGPNetwork) (r : String) : List (String × EdgeData) :=
  net.edges.filterMap (fun e => if e.1.1 = r then some (e.1.2, e.2) else none)

/-- Node attribute lookup `self.network.nodes(data=True)[r]`, totalised
with `⟨0, 0⟩` for an unregistered name. -/
def nodeOf (net : BGPNetwork) (r : String) : NodeData :=
  (aget net.routers r).getD ⟨0, 0⟩

def asOfD (net : BGPNetwork) (r : String) : Int := (nodeOf net r).as_num

def idOf (net : BGPNetwork) (r : String) : Int := (nodeOf net r).id

/-- The address `10.0.<AS>.<id>` of a registered router. -/
def addrOf (net : BGPNetwork) (r : String) : String :=
  let a := asOfD net r
  let i := idOf net r
  s!"10.0.{a}.{i}"

/-- Edge attribute lookup `self.network.adj[a][b]`. -/
def edgeD (net : BGPNetwork) (a b : String) : Option EdgeData :=
  aget net.edges (a, b)

/-- `self.network.adj[a][b]["type"]`, totalised with `""` when the edge is
missing (Python raises `KeyError` there). -/
def relOf (net : BGPNetwork) (a b : String) : String :=
  ((edgeD net a b).map (·.type)).getD ""

/-- `self.AS[a]`, totalised with the empty graph. -/
def asGraphOf (net : BGPNetwork) (a : Int) : ASGraph :=
  (aget net.asGraphs a).getD ⟨[], []⟩

/-- `self.bgp_tables[r]`, totalised with the empty dict. -/
def lookupTbl (net : BGPNetwork) (r : String) : List (String × List BGPRoute) :=
  (aget net.bgp_tables r).getD []

/-- `self.bgp_tables[r].get(p, set())` as a list. -/
def getTable (net : BGPNetwork) (r p : String) : List BGPRoute :=
  (aget (lookupTbl net r) p).getD []

/-- `add_node` on an AS graph with a `name` attribute (`src/bgp/bgp.py:41`):
re-adding updates the attribute. -/
def graphAddNode (g : ASGraph) (addr name : String) : ASGraph :=
  { g with nodes := aset g.nodes addr name }

/-- Implicit node creation performed by networkx `add_edge`: a missing
endpoint is added with no `name` attribute (modelled as `""`). -/
def graphAddNodeIfAbsent (g : ASGraph) (addr : String) : ASGraph :=
  if (aget g.nodes addr).isSome then g else { g with nodes := g.nodes ++ [(addr, "")] }

/-- `add_edge` with a `weight` attribute on an AS graph (`src/bgp/bgp.py:62-63`). -/
def graphAddEdge (g : ASGraph) (u v : String) (w : Int) : ASGraph :=
  let g := graphAddNodeIfAbsent g u
  let g := graphAddNodeIfAbsent g v
  { g with edges := aset g.edges (u, v) w }

/-- `BGPNetwork.add_router` (`src/bgp/bgp.py:39-43`). -/
def add_router (net : BGPNetwork) (name : String) (a id : Int) : BGPNetwork :=
  let g := graphAddNode ((aget net.asGraphs a).getD ⟨[], []⟩) s!"10.0.{a}.{id}" name
  { net with
    asGraphs := aset net.asGraphs a g
    routers := aset net.routers name ⟨a, id⟩
    bgp_tables := aset net.bgp_tables name [] }

/-- networkx `add_edge` on `self.network`: merges the given attributes into
the existing attribute dict of the edge, creating the edge if absent. -/
def setEdgeMerge (net : BGPNetwork) (a b : String) (f : Option EdgeData → EdgeData) :
    BGPNetwork :=
  { net with edges := aset net.edges (a, b) (f (edgeD net a b)) }

/-- `BGPNetwork.add_peer_link` (`src/bgp/bgp.py:45-47`). -/
def add_peer_link (net : BGPNetwork) (r1 r2 : String) (m : Int) : BGPNetwork :=
  let net := setEdgeMerge net r1 r2 (fun old => ⟨"peer", some m, (old.map (·.cost)).getD none⟩)
  setEdgeMerge net r2 r1 (fun old => ⟨"peer", some m, (old.map (·.cost)).getD none⟩)

/-- `BGPNetwork.add_provider_customer` (`src/bgp/bgp.py:49-51`): the
provider→customer edge has type `"customer"` and the reverse `"provider"`. -/
def add_provider_customer (net : BGPNetwork) (provider customer : String) (m : Int) :
    BGPNetwork :=
  let net := setEdgeMerge net provider customer
    (fun old => ⟨"customer", some m, (old.map (·.cost)).getD none⟩)
  setEdgeMerge net customer provider
    (fun old => ⟨"provider", some m, (old.map (·.cost)).getD none⟩)

/-- `BGPNetwork.add_internal_link` (`src/bgp/bgp.py:53-63`).  The two
network edges are added before the same-AS assertion; on assertion failure
(different ASes) the AS-graph edges are not added. -/
def add_internal_link (net : BGPNetwork) (r1 r2 : String) (c : Int) : BGPNetwork :=
  let net := setEdgeMerge net r1 r2 (fun old => ⟨"internal", (old.bind (·.med)), some c⟩)
  let net := setEdgeMerge net r2 r1 (fun old => ⟨"internal", (old.bind (·.med)), some c⟩)
  let d1 := nodeOf net r1
  let d2 := nodeOf net r2
  if d1.as_num = d2.as_num then
    let a := d1.as_num
    let i1 := d1.id
    let i2 := d2.id
    let p1 := s!"10.0.{a}.{i1}"
    let p2 := s!"10.0.{a}.{i2}"
    let g := graphAddEdge (graphAddEdge (asGraphOf net a) p1 p2 c) p2 p1 c
    { net with asGraphs := aset net.asGraphs a g }
  else net

/-! ## The IGP distance oracle (`BGPNetwork.distance`, `src/bgp/bgp.py:66-69`)

`nx.dijkstra_path` is embedded as a fueled Dijkstra search returning the
vertex list of a weight-minimal path; `distance` is its length, the hop
count used by the source. -/

/-- Remove a cost-minimal entry (the earliest one on ties, as a binary-heap
pop with insertion counters behaves) from the frontier. -/
def popMin : List (Int × String × List String) →
    Option ((Int × String × List String) × List (Int × String × List String))
  | [] => none
  | x :: xs =>
    match popMin xs with
    | none => some (x, [])
    | some (m, rest) => if x.1 ≤ m.1 then some (x, xs) else some (m, x :: rest)

/-- Weighted out-neighbours of a node of an AS graph. -/
def graphAdj (g : ASGraph) (u : String) : List (String × Int) :=
  g.edges.filterMap (fun e => if e.1.1 = u then some (e.1.2, e.2) else none)

/-- The Dijkstra main loop: frontier entries are (tentative cost, node,
path from the source to the node). -/
def dijkstraLoop (g : ASGraph) (target : String) :
    Nat → List (Int × String × List String) → List String → Option (List String)
  | 0, _, _ => none
  | fuel + 1, frontier, visited =>
    match popMin frontier with
    | none => none
    | some ((d, u, path), rest) =>
      if u ∈ visited then dijkstraLoop g target fuel rest visited
      else if u = target then some path
      else
        dijkstraLoop g target fuel
          (rest ++ (graphAdj g u).map (fun q => (d + q.2, q.1, path ++ [q.1])))
          (u :: visited)

/-- `nx.dijkstra_path(G, source, target, weight="weight")`: `none` models
the `NodeNotFound`/`NetworkXNoPath` exceptions.  The fuel dominates the
total number of frontier pops. -/
def dijkstra_path (g : ASGraph) (source target : String) : Option (List String) :=
  if (aget g.nodes source).isSome then
    dijkstraLoop g target
      ((g.nodes.length + 1) * (g.edges.length + 1) + 1) [(0, source, [source])] []
  else none

/-- `BGPNetwork.distance` (`src/bgp/bgp.py:66-69`): the number of vertices
on the Dijkstra path from the router's own address to `nexthop` inside its
AS graph; 0 totalises the exception case. -/
def distance (net : BGPNetwork) (router nexthop : String) : Nat :=
  ((dijkstra_path (asGraphOf net (asOfD net router)) (addrOf net router) nexthop).map
    List.length).getD 0

/-! ## The decision process (`BGPNetwork.decision_process`, `src/bgp/bgp.py:71-110`) -/

/-- `BGPRoute.__lt__` (`src/bgp/bgp.py:20-24`): an incomplete comparator;
the implicit `return None` on a full tie is falsy, i.e. `false` here. -/
def routeLt (r b : BGPRoute) : Bool :=
  if r.pref ≠ b.pref then decide (b.pref < r.pref)
  else if r.as_path.length ≠ b.as_path.length then
    decide (r.as_path.length < b.as_path.length)
  else false

/-- First pass of `decision_process` (`src/bgp/bgp.py:73-77`) after the
first iteration has replaced the `None` seed by the first route. -/
def firstPassGo (l : List BGPRoute) (b : BGPRoute) : BGPRoute :=
  l.foldl (fun b r => if routeLt r b then r else b) b

/-- First pass of `decision_process`: the fold starting from `best = None`
assigns the first route unconditionally, so it equals `firstPassGo` seeded
with the head. -/
def firstPassBest : List BGPRoute → Option BGPRoute
  | [] => none
  | r :: t => some (firstPassGo t r)

/-- One step of the `lowest_med` dict construction
(`src/bgp/bgp.py:87-93`): `d[k][0].med > r.med` replaces the partition,
equality appends, otherwise the route is dropped. -/
def medInsert (d : List (Int × List BGPRoute)) (k : Int) (r : BGPRoute) :
    List (Int × List BGPRoute) :=
  match aget d k with
  | none => d ++ [(k, [r])]
  | some l =>
    match l with
    | [] => aset d k [r]
    | x :: _ =>
      if r.med < x.med then aset d k [r]
      else if x.med = r.med then aset d k (l ++ [r]) else d

/-- The `lowest_med` dict of `decision_process` (`src/bgp/bgp.py:81-93`):
seeded with the stage-1/2 winner, then every route of equal pref and equal
AS-path length is folded in under its leftmost-AS key (`as_path[0]`,
totalised by `headI`). -/
def medGroups (routes : List BGPRoute) (best : BGPRoute) : List (Int × List BGPRoute) :=
  routes.foldl
    (fun d r =>
      if r.pref ≠ best.pref ∨ r.as_path.length ≠ best.as_path.length then d
      else medInsert d r.as_path.headI r)
    [(best.as_path.headI, [best])]

/-- The concatenation of the `lowest_med` partitions (`src/bgp/bgp.py:95-97`):
the candidates surviving to the final tiebreak fold. -/
def medSurvivors (routes : List BGPRoute) (best : BGPRoute) : List BGPRoute :=
  ((medGroups routes best).map (·.2)).flatten

/-- One step of the final tiebreak fold (`src/bgp/bgp.py:103-108`):
prefer eBGP over iBGP, then (both iBGP) the strictly smaller IGP distance
to the nexthop, then the lower router id. -/
def tiebreak (net : BGPNetwork) (router : String) (best route : BGPRoute) : BGPRoute :=
  if route.src ≠ best.src then (if best.src = "ebgp" then best else route)
  else if route.src = "ibgp" ∧
      distance net router route.nexthop ≠ distance net router best.nexthop then
    (if distance net router best.nexthop < distance net router route.nexthop then best
     else route)
  else (if best.router_id < route.router_id then best else route)

/-- The final fold of `decision_process` (`src/bgp/bgp.py:99-108`); as with
`firstPassBest`, the `None` seed is replaced by the first candidate. -/
def finalChoice (net : BGPNetwork) (router : String) : List BGPRoute → Option BGPRoute
  | [] => none
  | r :: t => some (t.foldl (tiebreak net router) r)

/-- `BGPNetwork.decision_process` (`src/bgp/bgp.py:71-110`). -/
def decision_process (net : BGPNetwork) (router p : String) : Option BGPRoute :=
  let routes := getTable net router p
  match firstPassBest routes with
  | none => none
  | some best => finalChoice net router (medSurvivors routes best)

/-! ## The propagation engine (`update`/`withdraw`/`announce_route`,
`src/bgp/bgp.py:112-207`) -/

/-- The local-preference table of `src/bgp/bgp.py:120-125` and `160-165`:
provider 50, peer 100, customer 150, internal preserves the route's pref.
Any other key raises `KeyError` in Python; totalised by preserving pref. -/
def prefFor (type_rel : String) (curPref : Int) : Int :=
  if type_rel = "provider" then 50
  else if type_rel = "peer" then 100
  else if type_rel = "customer" then 150
  else curPref

/-- `type_rel` of `src/bgp/bgp.py:116` and `158`: `"internal"` for an iBGP
route, else the relationship of the current→origin edge. -/
def relTypeFor (net : BGPNetwork) (route : BGPRoute) (current origin : String) : String :=
  if route.src = "ibgp" then "internal" else relOf net current origin

/-- `routes.add(...)` / table write-back of `src/bgp/bgp.py:119,126-127`. -/
def putRoute (net : BGPNetwork) (c p : String) (r : BGPRoute) : BGPNetwork :=
  let tbl := lookupTbl net c
  let routes := (aget tbl p).getD []
  let routes := if r ∈ routes then routes else routes ++ [r]
  { net with bgp_tables := aset net.bgp_tables c (aset tbl p routes) }

/-- `self.bgp_tables[current][route.prefix].remove(route)` (`src/bgp/bgp.py:171`). -/
def removeRoute (net : BGPNetwork) (c p : String) (r : BGPRoute) : BGPNetwork :=
  let tbl := lookupTbl net c
  let routes := (aget tbl p).getD []
  { net with bgp_tables := aset net.bgp_tables c (aset tbl p (routes.erase r)) }

/-- A message emitted by a handler: (route, target, kind); the sender is
always the handler's `current` router. -/
abbrev Send := BGPRoute × String × BGPMessage

/-- The names of the routers of the AS graph of AS `a`, in iteration order
of `self.AS[a].nodes(data=True)` (`src/bgp/bgp.py:131-132,178-179`). -/
def asNodeNames (net : BGPNetwork) (a : Int) : List String :=
  (asGraphOf net a).nodes.map (·.2)

/-- The iBGP fan-out of `update` (`src/bgp/bgp.py:131-140`): to every other
router of the AS, a WITHDRAW of the iBGP shadow of the previous best (when
it exists and was not iBGP-learned) and, when the received route came over
eBGP, an UPDATE of its iBGP shadow. -/
def updateIbgpSends (net : BGPNetwork) (route : BGPRoute) (current : String)
    (prevBest : Option BGPRoute) (a cid newPref : Int) : List Send :=
  let addr := s!"10.0.{a}.{cid}"
  (((asNodeNames net a).filter (fun n => n ≠ current)).map (fun rtr =>
    (match prevBest with
     | some pb =>
       if pb.src ≠ "ibgp" then
         [((⟨pb.pfx, addr, pb.as_path, pb.pref, pb.med, cid, "ibgp"⟩ : BGPRoute),
           rtr, BGPMessage.WITHDRAW)]
       else []
     | none => []) ++
    (if route.src ≠ "ibgp" then
       [((⟨route.pfx, addr, route.as_path, newPref, route.med, cid, "ibgp"⟩ : BGPRoute),
         rtr, BGPMessage.UPDATE)]
     else []))).flatten

/-- The eBGP fan-out of `update` (`src/bgp/bgp.py:141-153`): to every
non-internal neighbour, a WITHDRAW of the eBGP shadow of the previous best
(when it exists), then — unless the Gao-Rexford filter of line 151 skips —
an UPDATE of the eBGP shadow of the received route, both carrying the
edge's `med`. -/
def updateEbgpSendsFor (route : BGPRoute) (type_rel : String)
    (prevBest : Option BGPRoute) (a cid : Int) (nb : String × EdgeData) : List Send :=
  let addr := s!"10.0.{a}.{cid}"
  if nb.2.type = "internal" then []
  else
    let m := nb.2.med.getD 0
    (match prevBest with
     | some pb =>
       [((⟨pb.pfx, addr, a :: pb.as_path, -1, m, -1, "ebgp"⟩ : BGPRoute),
         nb.1, BGPMessage.WITHDRAW)]
     | none => []) ++
    (if type_rel ≠ "customer" ∧ nb.2.type ≠ "customer" then []
     else
       [((⟨route.pfx, addr, a :: route.as_path, -1, m, -1, "ebgp"⟩ : BGPRoute),
         nb.1, BGPMessage.UPDATE)])

def updateEbgpSends (net : BGPNetwork) (route : BGPRoute) (current : String)
    (type_rel : String) (prevBest : Option BGPRoute) (a cid : Int) : List Send :=
  ((adjOf net current).map (updateEbgpSendsFor route type_rel prevBest a cid)).flatten

/-- All messages emitted by one `update` invocation whose best changed. -/
def updateSends (net : BGPNetwork) (route : BGPRoute) (current : String)
    (type_rel : String) (prevBest : Option BGPRoute) (a cid newPref : Int) : List Send :=
  updateIbgpSends net route current prevBest a cid newPref ++
    updateEbgpSends net route current type_rel prevBest a cid

/-- The iBGP fan-out of `withdraw` (`src/bgp/bgp.py:178-186`): to every
router of the AS (the source does not skip `current` here), a WITHDRAW of
the iBGP shadow of the removed best and an UPDATE of the iBGP shadow of
the new best, each only when the respective route was not iBGP-learned. -/
def withdrawIbgpSends (net : BGPNetwork) (best newBest : BGPRoute) (a cid : Int) :
    List Send :=
  let addr := s!"10.0.{a}.{cid}"
  ((asNodeNames net a).map (fun rtr =>
    (if best.src ≠ "ibgp" then
       [((⟨best.pfx, addr, best.as_path, best.pref, best.med, cid, "ibgp"⟩ : BGPRoute),
         rtr, BGPMessage.WITHDRAW)]
     else []) ++
    (if newBest.src ≠ "ibgp" then
       [((⟨newBest.pfx, addr, newBest.as_path, newBest.pref, newBest.med, cid,
           "ibgp"⟩ : BGPRoute), rtr, BGPMessage.UPDATE)]
     else []))).flatten

/-- The `to_remove` object that reaches the eBGP loop of `withdraw`: built
at `src/bgp/bgp.py:176` as the eBGP shadow, but rebound at line 181 — for
every iteration of the iBGP loop — to the iBGP shadow when the removed
best was not iBGP-learned; the eBGP loop then sends the final binding. -/
def withdrawToRemove (net : BGPNetwork) (best : BGPRoute) (a cid : Int) : BGPRoute :=
  let addr := s!"10.0.{a}.{cid}"
  if best.src ≠ "ibgp" ∧ asNodeNames net a ≠ [] then
    ⟨best.pfx, addr, best.as_path, best.pref, best.med, cid, "ibgp"⟩
  else ⟨best.pfx, addr, a :: best.as_path, -1, -1, -1, "ebgp"⟩

/-- The eBGP fan-out of `withdraw` (`src/bgp/bgp.py:187-197`): to every
non-internal neighbour, a WITHDRAW of the final `to_remove` with the
edge's `med`, then — unless the line-192 filter skips — an UPDATE of the
eBGP shadow of the new best. -/
def withdrawEbgpSendsFor (toRemove newBest : BGPRoute) (a cid : Int)
    (nb : String × EdgeData) : List Send :=
  let addr := s!"10.0.{a}.{cid}"
  if nb.2.type = "internal" then []
  else
    let m := nb.2.med.getD 0
    [({ toRemove with med := m }, nb.1, BGPMessage.WITHDRAW)] ++
    (if newBest.pref ≠ 150 ∧ nb.2.type ≠ "customer" then []
     else
       [((⟨newBest.pfx, addr, a :: newBest.as_path, -1, m, -1, "ebgp"⟩ : BGPRoute),
         nb.1, BGPMessage.UPDATE)])

def withdrawEbgpSends (net : BGPNetwork) (best newBest : BGPRoute) (current : String)
    (a cid : Int) : List Send :=
  ((adjOf net current).map
    (withdrawEbgpSendsFor (withdrawToRemove net best a cid) newBest a cid)).flatten

/-- All messages emitted by one `withdraw` invocation that removed the
current best and found a new one. -/
def withdrawSends (net : BGPNetwork) (best newBest : BGPRoute) (current : String)
    (a cid : Int) : List Send :=
  withdrawIbgpSends net best newBest a cid ++
    withdrawEbgpSends net best newBest current a cid

/-- Selector for the mutually recursive procedures of the engine. -/
inductive Act
  | announce (ty : BGPMessage)
  | doUpdate
  | doWithdraw
deriving DecidableEq

/-- Which handler `announce_route` dispatches to (`src/bgp/bgp.py:204-207`). -/
def handlerOf : BGPMessage → Act
  | .UPDATE => .doUpdate
  | .WITHDRAW => .doWithdraw

/-- The mutually recursive core `announce_route`/`update`/`withdraw`
(`src/bgp/bgp.py:112-207`), merged into one function structurally
recursive on an explicit fuel; exhausted fuel returns the state unchanged.
`announce` records the message in the ghost trace, applies the AS-path
loop filter of lines 202-203 and dispatches; the handler cases are the
bodies of `update` and `withdraw`, with their fan-out loops precomputed as
`Send` lists (every message of those loops is built from values fixed
before the loops run, so this is faithful to the source's interleaving). -/
def engine : Nat → Act → BGPNetwork → BGPRoute → String → String → BGPNetwork
  | 0, _, net, _, _, _ => net
  | fuel + 1, .announce ty, net, route, current, origin =>
    let net := { net with trace := net.trace ++ [(route, current, origin, ty)] }
    if asOfD net current ∈ route.as_path then net
    else engine fuel (handlerOf ty) net route current origin
  | fuel + 1, .doUpdate, net, route, current, origin =>
    let a := asOfD net current
    let ridO := idOf net origin
    let cid := idOf net current
    let type_rel := relTypeFor net route current origin
    let prevBest := decision_process net current route.pfx
    let newPref := prefFor type_rel route.pref
    let stored : BGPRoute :=
      ⟨route.pfx, route.nexthop, route.as_path, newPref, route.med, ridO, route.src⟩
    let net1 := putRoute net current route.pfx stored
    let best := decision_process net1 current route.pfx
    if prevBest ≠ best then
      (updateSends net1 route current type_rel prevBest a cid newPref).foldl
        (fun n s => engine fuel (.announce s.2.2) n s.1 s.2.1 current) net1
    else net1
  | fuel + 1, .doWithdraw, net, route, current, origin =>
    let a := asOfD net current
    let cid := idOf net current
    let type_rel := relTypeFor net route current origin
    let best := decision_process net current route.pfx
    let newPref := prefFor type_rel route.pref
    let route1 : BGPRoute := { route with pref := newPref }
    match aget (lookupTbl net current) route.pfx with
    | none => net
    | some routes =>
      if route1 ∈ routes then
        let net1 := removeRoute net current route.pfx route1
        if best = some route1 then
          match decision_process net1 current route.pfx with
          | none => net1
          | some newBest =>
            (withdrawSends net1 route1 newBest current a cid).foldl
              (fun n s => engine fuel (.announce s.2.2) n s.1 s.2.1 current) net1
        else net1
      else net

/-- `BGPNetwork.announce_route` (`src/bgp/bgp.py:199-207`). -/
def announce_route (fuel : Nat) (net : BGPNetwork) (route : BGPRoute)
    (current origin : String) (ty : BGPMessage) : BGPNetwork :=
  engine fuel (.announce ty) net route current origin

/-- `BGPNetwork.update` (`src/bgp/bgp.py:112-153`). -/
def update (fuel : Nat) (net : BGPNetwork) (route : BGPRoute)
    (current origin : String) : BGPNetwork :=
  engine fuel .doUpdate net route current origin

/-- `BGPNetwork.withdraw` (`src/bgp/bgp.py:155-197`). -/
def withdraw (fuel : Nat) (net : BGPNetwork) (route : BGPRoute)
    (current origin : String) : BGPNetwork :=
  engine fuel .doWithdraw net route current origin

/-! ## Origination (`BGPNetwork.announce_prefix`, `src/bgp/bgp.py:212-219`)

The loop at lines 217-219 mutates the `med` field of the very route object
that was just installed in the originator's table (the set of line 216
holds a reference to it), and reads `adj[router][neigh]["med"]` for every
neighbour — a `KeyError` (modelled by `none`) when a neighbour is reached
over an internal edge, which carries no `med` attribute. -/

/-- The neighbour loop of `announce_prefix`: before each send, the stored
aliased route's `med` is updated in place; the `Option` is the `KeyError`
on a missing `med` attribute. -/
def announce_pfx_go (fuel : Nat) (router pfx : String) :
    BGPRoute → List (String × EdgeData) → BGPNetwork → Option BGPNetwork
  | _, [], net => some net
  | route, (neigh, d) :: rest, net =>
    match d.med with
    | none => none
    | some m =>
      let route1 := { route with med := m }
      let tbl := lookupTbl net router
      let routes := (aget tbl pfx).getD []
      let net := { net with
        bgp_tables := aset net.bgp_tables router
          (aset tbl pfx (routes.map (fun x => if x = route then route1 else x))) }
      let net := engine fuel (.announce .UPDATE) net route1 neigh router
      announce_pfx_go fuel router pfx route1 rest net

/-- `BGPNetwork.announce_prefix` (`src/bgp/bgp.py:212-219`), named
`announce_pfx` here: installs the self route `(10.0.<AS>.0, 10.0.<AS>.<id>,
(AS,), 1000, 0, -1, ebgp)` as the sole entry of the originator's table for
the prefix and then announces it to every neighbour with that edge's med. -/
def announce_pfx (fuel : Nat) (net : BGPNetwork) (router : String) : Option BGPNetwork :=
  let d := nodeOf net router
  let a := d.as_num
  let i := d.id
  let pfx := s!"10.0.{a}.0"
  let route : BGPRoute := ⟨pfx, s!"10.0.{a}.{i}", [a], 1000, 0, -1, "ebgp"⟩
  let net := { net with
    bgp_tables := aset net.bgp_tables router (aset (lookupTbl net router) pfx [route]) }
  announce_pfx_go fuel router pfx route (adjOf net router) net

/-! ## Derived notions used by the claims -/

/-- The prefix `10.0.<AS>.0` a router originates. -/
def pfxOf (net : BGPNetwork) (r : String) : String :=
  let a := asOfD net r
  s!"10.0.{a}.0"

/-- The self route installed by `announce_pfx` (`src/bgp/bgp.py:215`). -/
def selfRouteOf (net : BGPNetwork) (r : String) : BGPRoute :=
  ⟨pfxOf net r, addrOf net r, [asOfD net r], 1000, 0, -1, "ebgp"⟩

/-- The re-stamped route an UPDATE stores (`src/bgp/bgp.py:126`). -/
def restamped (net : BGPNetwork) (m : BGPRoute) (c o : String) : BGPRoute :=
  ⟨m.pfx, m.nexthop, m.as_path, prefFor (relTypeFor net m c o) m.pref, m.med,
    idOf net o, m.src⟩

/-- The re-stamped route a WITHDRAW matches against (`src/bgp/bgp.py:166`). -/
def wRestamped (net : BGPNetwork) (m : BGPRoute) (c o : String) : BGPRoute :=
  { m with pref := prefFor (relTypeFor net m c o) m.pref }

/-- The engine and the origination mutate only `bgp_tables` and `trace`;
this relation records that the topology fields agree. -/
def sameTopo (net n : BGPNetwork) : Prop :=
  n.routers = net.routers ∧ n.edges = net.edges ∧ n.asGraphs = net.asGraphs

/-- Loop freedom up to self routes: every route of every BGP table either
avoids the table owner's AS in its AS-path, or is the owner's
self-originated route (whose path is exactly its own AS, whatever its
`med` — `announce_pfx` mutates that field in place). -/
def LoopFreeExceptSelf (net : BGPNetwork) : Prop :=
  ∀ (R p : String), ∀ r ∈ getTable net R p,
    asOfD net R ∉ r.as_path ∨
      (r.pref = 1000 ∧ r.router_id = -1 ∧ r.src = "ebgp" ∧
        r.as_path = [asOfD net R])

/-- Table invariant for the origination analysis: every stored route's
`pfx` field equals its dict key, and every route stored under key `p` has
a nonempty AS-path ending in `A` (the originator's AS). -/
def TblInv (p : String) (A : Int) (net : BGPNetwork) : Prop :=
  ∀ (S q : String), ∀ r ∈ getTable net S q,
    r.pfx = q ∧ (q = p → r.as_path ≠ [] ∧ r.as_path.getLast? = some A)

/-- Message invariant for the origination analysis: the message concerns
prefix `p` and its AS-path is nonempty and ends in `A`. -/
def MsgOK (p : String) (A : Int) (m : BGPRoute) : Prop :=
  m.pfx = p ∧ m.as_path ≠ [] ∧ m.as_path.getLast? = some A

/-- An origination send: the UPDATE of the (med-aliased) self route over
one adjacency edge of the originator. -/
def OriginMsg (lst : List (String × EdgeData)) (route : BGPRoute) (R : String)
    (e : TraceEntry) : Prop :=
  ∃ nb ∈ lst, ∃ mv : Int, nb.2.med = some mv ∧
    e = ({ route with med := mv }, nb.1, R, BGPMessage.UPDATE)

/-- Stage-1/2 dominance: `b` is at least as good as `s` under highest
local-pref then shortest AS-path. -/
def ge12 (b s : BGPRoute) : Prop :=
  s.pref < b.pref ∨ (s.pref = b.pref ∧ b.as_path.length ≤ s.as_path.length)

/-- The routes the `lowest_med` dict of `decision_process` can contain
after processing `seen`: the stage-1/2 seed `best` and every processed
route of equal pref and equal AS-path length. -/
def medCand (best : BGPRoute) (seen : List BGPRoute) (y : BGPRoute) : Prop :=
  y = best ∨ (y ∈ seen ∧ y.pref = best.pref ∧
    y.as_path.length = best.as_path.length)

/-- Invariant of the `lowest_med` dict construction: each partition is the
nonempty list of the candidates of its key whose `med` attains the
partition minimum, and absent keys have no candidates. -/
def MedInv (best : BGPRoute) (seen : List BGPRoute)
    (d : List (Int × List BGPRoute)) : Prop :=
  (∀ k l, aget d k = some l →
    l ≠ [] ∧
    ∃ m : Int,
      (∀ x ∈ l, x.med = m ∧ x.as_path.headI = k ∧ medCand best seen x) ∧
      ∀ y, medCand best seen y → y.as_path.headI = k →
        m ≤ y.med ∧ (y.med = m → y ∈ l)) ∧
  (∀ k, aget d k = none → ∀ y, medCand best seen y → y.as_path.headI ≠ k)

/-! ## Concrete scenarios (from the repository's tests)

`bld3` is the r1/r2/r3 sub-topology of `tests/test_ebgp.py` (r3 provider
of r1, r1 provider of r2, r2–r3 peers), on which the engine reproduces the
fixture's entries for r1, r2 and r3 exactly. -/

def bld2 : BGPNetwork :=
  add_provider_customer (add_router (add_router emptyNet "r1" 1 1) "r2" 2 2) "r1" "r2" 0

def bld2m5 : BGPNetwork :=
  add_provider_customer (add_router (add_router emptyNet "r1" 1 1) "r2" 2 2) "r1" "r2" 5

def bld3 : BGPNetwork :=
  add_provider_customer
    (add_provider_customer
      (add_peer_link
        (add_router (add_router (add_router emptyNet "r1" 1 1) "r2" 2 2) "r3" 3 3)
        "r2" "r3" 0)
      "r3" "r1" 0)
    "r1" "r2" 0

/-- Steady state of the two-router scenario after `announce_prefix("r2")`. -/
def net2 : BGPNetwork := (announce_pfx 20 bld2 "r2").getD emptyNet

/-- Steady state of the two-router scenario with `med = 5` on the edge. -/
def net2m5 : BGPNetwork := (announce_pfx 20 bld2m5 "r2").getD emptyNet

/-- Steady state of the three-router scenario after `announce_prefix("r2")`. -/
def net3 : BGPNetwork := (announce_pfx 40 bld3 "r2").getD emptyNet

/-- The WITHDRAW of the original r2→r1 announcement (scenario S6): the
stored route at r1 is `(10.0.2.0, 10.0.2.2, (2,), 150, 0, 2, ebgp)`, and
re-stamping the pref of this message over the customer edge matches it. -/
def wMsg : BGPRoute := ⟨"10.0.2.0", "10.0.2.2", [2], 1000, 0, 2, "ebgp"⟩

/-- State after delivering `wMsg` as a WITHDRAW at r1 (from r2). -/
def net3w : BGPNetwork := announce_route 40 net3 wMsg "r1" "r2" .WITHDRAW

/-! ## Association-list lemmas -/

theorem aget_aset {κ β : Type} [DecidableEq κ] (l : List (κ × β)) (k : κ) (v : β)
    (k' : κ) : aget (aset l k v) k' = if k = k' then some v else aget l k' := by
  induction l with
  | nil => simp [aset, aget]
  | cons e t ih =>
    obtain ⟨a, b⟩ := e
    by_cases hak : a = k
    · subst hak
      by_cases h : a = k' <;> simp [aset, aget, h]
    · by_cases h1 : a = k'
      · have h2 : ¬k = k' := fun hh => hak (h1.trans hh.symm)
        have h3 : ¬k' = k := fun hh => h2 hh.symm
        simp [aset, aget, hak, h1, h2, h3]
      · simp [aset, aget, hak, h1, ih]

theorem mem_aset {κ β : Type} [DecidableEq κ] (l : List (κ × β)) (k : κ) (v : β)
    (x : κ × β) (hx : x ∈ aset l k v) : x = (k, v) ∨ x ∈ l := by
  induction l with
  | nil => simpa [aset] using hx
  | cons e t ih =>
    obtain ⟨a, b⟩ := e
    by_cases hak : a = k
    · subst hak
      rcases (by simpa [aset] using hx : x = (a, v) ∨ x ∈ t) with h | h
      · exact Or.inl h
      · exact Or.inr (List.mem_cons_of_mem _ h)
    · rcases (by simpa [aset, hak] using hx : x = (a, b) ∨ x ∈ aset t k v) with h | h
      · exact Or.inr (by simp [h])
      · rcases ih h with h1 | h1
        · exact Or.inl h1
        · exact Or.inr (List.mem_cons_of_mem _ h1)

theorem aget_mem {κ β : Type} [DecidableEq κ] (l : List (κ × β)) (k : κ) (v : β)
    (h : aget l k = some v) : (k, v) ∈ l := by
  induction l with
  | nil => simp [aget] at h
  | cons e t ih =>
    obtain ⟨a, b⟩ := e
    by_cases hak : a = k
    · subst hak
      simp [aget] at h
      simp [h]
    · simp [aget, hak] at h
      exact List.mem_cons_of_mem _ (ih h)

theorem aset_self {κ β : Type} [DecidableEq κ] (l : List (κ × β)) (k : κ) (v : β)
    (h : aget l k = some v) : aset l k v = l := by
  induction l with
  | nil => simp [aget] at h
  | cons e t ih =>
    obtain ⟨a, b⟩ := e
    by_cases hak : a = k
    · subst hak
      simp [aget] at h
      simp [aset, h]
    · simp [aget, hak] at h
      simp [aset, hak, ih h]

/-! ## Fold lemmas -/

theorem foldl_pres {σ α : Type} (P : σ → Prop) (f : σ → α → σ) (l : List α)
    (h : ∀ s a, a ∈ l → P s → P (f s a)) :
    ∀ s, P s → P (l.foldl f s) := by
  induction l with
  | nil => intro s hs; simpa using hs
  | cons a t ih =>
    intro s hs
    simp only [List.foldl_cons]
    exact ih (fun s b hb => h s b (List.mem_cons_of_mem _ hb)) _
      (h s a (List.mem_cons_self a t) hs)

theorem foldl_choice_mem {α : Type} (f : α → α → α)
    (hf : ∀ b r, f b r = b ∨ f b r = r) :
    ∀ (l : List α) (b : α), l.foldl f b = b ∨ l.foldl f b ∈ l := by
  intro l
  induction l with
  | nil => intro b; simp
  | cons a t ih =>
    intro b
    simp only [List.foldl_cons]
    rcases ih (f b a) with h | h
    · rcases hf b a with h1 | h1
      · rw [h, h1]; exact Or.inl rfl
      · rw [h, h1]; exact Or.inr (List.mem_cons_self a t)
    · exact Or.inr (List.mem_cons_of_mem _ h)

/-! ## Engine basics -/

theorem engine_topo (f : Nat) (act : Act) (net : BGPNetwork) (m : BGPRoute)
    (c o : String) : sameTopo net (engine f act net m c o) := by
  induction f generalizing act net m c o with
  | zero => exact ⟨rfl, rfl, rfl⟩
  | succ f ih =>
    cases act with
    | announce ty =>
      simp only [engine]
      split
      · exact ⟨rfl, rfl, rfl⟩
      · rcases ih (handlerOf ty) _ m c o with ⟨h1, h2, h3⟩
        exact ⟨h1, h2, h3⟩
    | doUpdate =>
      simp only [engine]
      split
      · refine foldl_pres (sameTopo net) _ _ ?_ _ ?_
        · intro s a _ hs
          rcases ih (.announce a.2.2) s a.1 a.2.1 c with ⟨h1, h2, h3⟩
          exact ⟨h1.trans hs.1, h2.trans hs.2.1, h3.trans hs.2.2⟩
        · exact ⟨rfl, rfl, rfl⟩
      · exact ⟨rfl, rfl, rfl⟩
    | doWithdraw =>
      simp only [engine]
      split
      · exact ⟨rfl, rfl, rfl⟩
      · split
        · split
          · split
            · exact ⟨rfl, rfl, rfl⟩
            · refine foldl_pres (sameTopo net) _ _ ?_ _ ?_
              · intro s a _ hs
                rcases ih (.announce a.2.2) s a.1 a.2.1 c with ⟨h1, h2, h3⟩
                exact ⟨h1.trans hs.1, h2.trans hs.2.1, h3.trans hs.2.2⟩
              · exact ⟨rfl, rfl, rfl⟩
          · exact ⟨rfl, rfl, rfl⟩
        · exact ⟨rfl, rfl, rfl⟩

/-! ## Table-update lemmas -/

theorem getTable_putRoute (net : BGPNetwork) (c p : String) (r : BGPRoute)
    (S q : String) :
    getTable (putRoute net c p r) S q =
      if c = S ∧ p = q then
        (if r ∈ getTable net c p then getTable net c p else getTable net c p ++ [r])
      else getTable net S q := by
  by_cases hc : c = S
  · subst hc
    by_cases hp : p = q
    · subst hp
      simp [getTable, putRoute, lookupTbl, aget_aset]
    · simp [getTable, putRoute, lookupTbl, aget_aset, hp]
  · simp [getTable, putRoute, lookupTbl, aget_aset, hc]

theorem getTable_removeRoute (net : BGPNetwork) (c p : String) (r : BGPRoute)
    (S q : String) :
    getTable (removeRoute net c p r) S q =
      if c = S ∧ p = q then (getTable net c p).erase r else getTable net S q := by
  by_cases hc : c = S
  · subst hc
    by_cases hp : p = q
    · subst hp
      simp [getTable, removeRoute, lookupTbl, aget_aset]
    · simp [getTable, removeRoute, lookupTbl, aget_aset, hp]
  · simp [getTable, removeRoute, lookupTbl, aget_aset, hc]

theorem putRoute_mem_eq (net : BGPNetwork) (c p : String) (r : BGPRoute)
    (h : r ∈ getTable net c p) : putRoute net c p r = net := by
  rcases hag : aget (lookupTbl net c) p with _ | routes
  · rw [getTable, hag] at h
    simp at h
  · have hroutes : getTable net c p = routes := by rw [getTable, hag]; rfl
    rcases hag2 : aget net.bgp_tables c with _ | tbl
    · exfalso
      rw [lookupTbl, hag2] at hag
      simp [aget] at hag
    · have htbl : lookupTbl net c = tbl := by rw [lookupTbl, hag2]; rfl
      rw [putRoute, htbl]
      rw [htbl] at hag
      rw [hroutes] at h
      simp only [hag, Option.getD_some, h, if_pos]
      rw [aset_self _ _ _ hag, aset_self _ _ _ hag2]

/-! ## Unfolding equations for the engine -/

theorem update_eq (f : Nat) (net : BGPNetwork) (m : BGPRoute) (c o : String) :
    update (f + 1) net m c o =
      (if decision_process net c m.pfx ≠
          decision_process (putRoute net c m.pfx (restamped net m c o)) c m.pfx then
        (updateSends (putRoute net c m.pfx (restamped net m c o)) m c
            (relTypeFor net m c o) (decision_process net c m.pfx)
            (asOfD net c) (idOf net c)
            (prefFor (relTypeFor net m c o) m.pref)).foldl
          (fun n s => engine f (.announce s.2.2) n s.1 s.2.1 c)
          (putRoute net c m.pfx (restamped net m c o))
      else putRoute net c m.pfx (restamped net m c o)) := rfl

theorem withdraw_eq (f : Nat) (net : BGPNetwork) (m : BGPRoute) (c o : String) :
    withdraw (f + 1) net m c o =
      (match aget (lookupTbl net c) m.pfx with
       | none => net
       | some routes =>
         if wRestamped net m c o ∈ routes then
           if decision_process net c m.pfx = some (wRestamped net m c o) then
             match decision_process (removeRoute net c m.pfx (wRestamped net m c o))
                 c m.pfx with
             | none => removeRoute net c m.pfx (wRestamped net m c o)
             | some newBest =>
               (withdrawSends (removeRoute net c m.pfx (wRestamped net m c o))
                   (wRestamped net m c o) newBest c (asOfD net c) (idOf net c)).foldl
                 (fun n s => engine f (.announce s.2.2) n s.1 s.2.1 c)
                 (removeRoute net c m.pfx (wRestamped net m c o))
           else removeRoute net c m.pfx (wRestamped net m c o)
         else net) := rfl

theorem announce_eq (f : Nat) (net : BGPNetwork) (m : BGPRoute) (c o : String)
    (ty : BGPMessage) :
    announce_route (f + 1) net m c o ty =
      (if asOfD net c ∈ m.as_path then
        { net with trace := net.trace ++ [(m, c, o, ty)] }
      else
        engine f (handlerOf ty)
          { net with trace := net.trace ++ [(m, c, o, ty)] } m c o) := rfl

/-! ## C7, C8, C9: local properties of the handlers -/

/-- C7: `withdraw(route, local, origin)` removes a route only when the
pref-re-stamped incoming route is present, all seven fields equal, in the
local table; otherwise the whole network state (every table, and the
message trace) is returned unchanged.  The first hypothesis states that
the re-stamping relationship lookup of `src/bgp/bgp.py:158` succeeds (in
Python a missing edge would raise). -/
theorem C7_withdraw_noop (f : Nat) (net : BGPNetwork) (m : BGPRoute) (c o : String)
    (_hrel : m.src = "ibgp" ∨ (edgeD net c o).isSome)
    (hno : wRestamped net m c o ∉ getTable net c m.pfx) :
    withdraw (f + 1) net m c o = net := by
  rw [withdraw_eq]
  rcases hag : aget (lookupTbl net c) m.pfx with _ | routes
  · rfl
  · have hroutes : getTable net c m.pfx = routes := by rw [getTable, hag]; rfl
    rw [hroutes] at hno
    simp [hno]

/-- C8: when the withdrawn route was the current best and the decision
process over the remaining routes returns none, the handler stops right
after the removal: the result is exactly the local table minus that route,
no message is emitted (the trace is unchanged), and every other router's
table — indeed every other table entry — is unchanged. -/
theorem C8_silent_withdraw (f : Nat) (net : BGPNetwork) (m : BGPRoute) (c o : String)
    (hmem : wRestamped net m c o ∈ getTable net c m.pfx)
    (hbest : decision_process net c m.pfx = some (wRestamped net m c o))
    (hnone : decision_process (removeRoute net c m.pfx (wRestamped net m c o))
      c m.pfx = none) :
    withdraw (f + 1) net m c o = removeRoute net c m.pfx (wRestamped net m c o) ∧
    (withdraw (f + 1) net m c o).trace = net.trace ∧
    ∀ S q : String, ¬(c = S ∧ m.pfx = q) →
      getTable (withdraw (f + 1) net m c o) S q = getTable net S q := by
  rcases hag : aget (lookupTbl net c) m.pfx with _ | routes
  · rw [getTable, hag] at hmem
    simp at hmem
  · have hroutes : getTable net c m.pfx = routes := by rw [getTable, hag]; rfl
    rw [hroutes] at hmem
    have hmain : withdraw (f + 1) net m c o =
        removeRoute net c m.pfx (wRestamped net m c o) := by
      rw [withdraw_eq, hag]
      simp [hmem, hbest, hnone]
    refine ⟨hmain, ?_, ?_⟩
    · rw [hmain]; rfl
    · intro S q hSq
      rw [hmain, getTable_removeRoute]
      simp [hSq]

/-- C9: a duplicate UPDATE is a no-op.  If the re-stamped route the UPDATE
would store is already present in the receiver's table — as it is right
after the first delivery of the same UPDATE from the same origin — then
the set insertion changes nothing, the best route before and after the
insertion coincide, no fan-out happens, and the whole network state is
returned exactly unchanged.  The second conjunct runs the literal
twice-delivery on the two-router scenario: a repeated delivery of the
origination UPDATE at r1 returns the steady state unchanged. -/
theorem C9_update_idempotent :
    (∀ (f : Nat) (net : BGPNetwork) (m : BGPRoute) (c o : String),
      restamped net m c o ∈ getTable net c m.pfx →
      update (f + 1) net m c o = net) ∧
    update 6 net2 (⟨"10.0.2.0", "10.0.2.2", [2], 1000, 0, -1, "ebgp"⟩ : BGPRoute)
      "r1" "r2" = net2 := by
  have hgen : ∀ (f : Nat) (net : BGPNetwork) (m : BGPRoute) (c o : String),
      restamped net m c o ∈ getTable net c m.pfx →
      update (f + 1) net m c o = net := by
    intro f net m c o hmem
    rw [update_eq]
    have hput : putRoute net c m.pfx (restamped net m c o) = net :=
      putRoute_mem_eq _ _ _ _ hmem
    simp [hput]
  refine ⟨hgen, ?_⟩
  exact hgen 5 net2 _ "r1" "r2" (by decide)

/-- Witness for C7: withdrawing a never-announced route (router_id −1 does
not match the stored router_id 2) at r1 of the two-router steady state is
a complete no-op. -/
theorem C7_witness :
    withdraw 4 net2 (⟨"10.0.2.0", "10.0.2.2", [2], 0, 0, -1, "ebgp"⟩ : BGPRoute)
      "r1" "r2" = net2 :=
  C7_withdraw_noop 3 net2 _ "r1" "r2" (by decide) (by decide)

/-- Witness for C8: withdrawing r1's only route empties the table and the
handler stops without touching the trace. -/
theorem C8_witness :
    withdraw 4 net2 (⟨"10.0.2.0", "10.0.2.2", [2], 1000, 0, 2, "ebgp"⟩ : BGPRoute)
      "r1" "r2" =
      removeRoute net2 "r1" "10.0.2.0"
        (wRestamped net2 (⟨"10.0.2.0", "10.0.2.2", [2], 1000, 0, 2, "ebgp"⟩ : BGPRoute)
          "r1" "r2") :=
  (C8_silent_withdraw 3 net2 _ "r1" "r2" (by decide) (by decide) (by decide)).1

/-- Witness for C9: re-delivering the origination UPDATE at r1 of the
two-router steady state a second time returns the state unchanged. -/
theorem C9_witness :
    update 8 net2 (⟨"10.0.2.0", "10.0.2.2", [2], 1000, 0, -1, "ebgp"⟩ : BGPRoute)
      "r1" "r2" = net2 :=
  C9_update_idempotent.1 7 net2 _ "r1" "r2" (by decide)

/-! ## C2: the Gao-Rexford export guards -/

/-- C2: the Gao-Rexford export filter.  In `update`'s eBGP fan-out, an
UPDATE is produced for a non-internal neighbour N only when the relation
the route was learned from (`type_rel`) or the relation toward N is
`customer` (`src/bgp/bgp.py:151-153`); in `withdraw`'s re-announcement, an
UPDATE is produced only when the new best's pref is 150 or the relation
toward N is `customer` (`src/bgp/bgp.py:192-193`).  Routes learned from
providers or peers are therefore never announced across a provider or
peer edge. -/
theorem C2_gao_rexford_export :
    (∀ (route : BGPRoute) (type_rel : String) (prevBest : Option BGPRoute)
      (a cid : Int) (nb : String × EdgeData) (s : Send),
      s ∈ updateEbgpSendsFor route type_rel prevBest a cid nb →
      s.2.2 = BGPMessage.UPDATE →
      type_rel = "customer" ∨ nb.2.type = "customer") ∧
    (∀ (toRemove newBest : BGPRoute) (a cid : Int) (nb : String × EdgeData) (s : Send),
      s ∈ withdrawEbgpSendsFor toRemove newBest a cid nb →
      s.2.2 = BGPMessage.UPDATE →
      newBest.pref = 150 ∨ nb.2.type = "customer") := by
  constructor
  · intro route type_rel prevBest a cid nb s hs hty
    by_cases hint : nb.2.type = "internal"
    · simp [updateEbgpSendsFor, hint] at hs
    · by_cases hg : type_rel ≠ "customer" ∧ nb.2.type ≠ "customer"
      · exfalso
        rcases prevBest with _ | pb <;>
          simp [updateEbgpSendsFor, hint, hg] at hs <;>
          rw [hs] at hty <;> exact absurd hty (by simp)
      · rcases not_and_or.mp hg with h | h
        · exact Or.inl (not_not.mp h)
        · exact Or.inr (not_not.mp h)
  · intro toRemove newBest a cid nb s hs hty
    by_cases hint : nb.2.type = "internal"
    · simp [withdrawEbgpSendsFor, hint] at hs
    · by_cases hg : newBest.pref ≠ 150 ∧ nb.2.type ≠ "customer"
      · exfalso
        simp [withdrawEbgpSendsFor, hint, hg] at hs
        rw [hs] at hty
        exact absurd hty (by simp)
      · rcases not_and_or.mp hg with h | h
        · exact Or.inl (not_not.mp h)
        · exact Or.inr (not_not.mp h)

/-- Witness for C2: a concrete UPDATE member of each eBGP fan-out list,
with the respective customer disjunct. -/
theorem C2_witness :
    ("provider" = "customer" ∨
      (("rx", (⟨"customer", some 0, none⟩ : EdgeData)) : String × EdgeData).2.type =
        "customer") ∧
    (((⟨"10.0.2.0", "10.0.1.1", [2], 150, 0, 2, "ebgp"⟩ : BGPRoute).pref = 150) ∨
      (("ry", (⟨"provider", some 0, none⟩ : EdgeData)) : String × EdgeData).2.type =
        "customer") := by
  constructor
  · exact C2_gao_rexford_export.1 (⟨"10.0.2.0", "10.0.1.1", [2], 100, 0, 2, "ebgp"⟩)
      "provider" none 1 1 ("rx", ⟨"customer", some 0, none⟩)
      ((⟨"10.0.2.0", "10.0.1.1", (1 : Int) :: [2], -1, 0, -1, "ebgp"⟩ : BGPRoute),
        "rx", BGPMessage.UPDATE) (by decide) (by decide)
  · exact C2_gao_rexford_export.2 (⟨"10.0.2.0", "10.0.1.1", [2], 150, 0, 2, "ebgp"⟩)
      (⟨"10.0.2.0", "10.0.1.1", [2], 150, 0, 2, "ebgp"⟩) 1 1
      ("ry", ⟨"provider", some 0, none⟩)
      ((⟨"10.0.2.0", "10.0.1.1", (1 : Int) :: [2], -1, 0, -1, "ebgp"⟩ : BGPRoute),
        "ry", BGPMessage.UPDATE) (by decide) (by decide)

/-! ## C6: the router_id carried by eBGP WITHDRAWs, and their no-op effect -/

/-- Counterexample to C6 as stated: in the S6 run (three-router steady
state, then WITHDRAW of the r2→r1 announcement at r1), the `withdraw`
handler's eBGP fan-out sends across the external (provider) r1→r3 edge a
WITHDRAW whose route carries `router_id = 1` (= id of r1) and
`src = "ibgp"` — not `router_id = -1`: the `to_remove` object built at
`src/bgp/bgp.py:176` is rebound inside the iBGP loop (line 181) to the
iBGP shadow before the eBGP loop (lines 187-191) sends it. -/
theorem C6_counterexample :
    ((⟨"10.0.2.0", "10.0.1.1", [2], 150, 0, 1, "ibgp"⟩ : BGPRoute), "r3", "r1",
      BGPMessage.WITHDRAW) ∈ net3w.trace ∧
    relOf net3w "r1" "r3" = "provider" ∧
    (⟨"10.0.2.0", "10.0.1.1", [2], 150, 0, 1, "ibgp"⟩ : BGPRoute).router_id ≠ -1 := by
  refine ⟨by decide, by decide, by decide⟩

/-- C6 (amended): every WITHDRAW in `update`'s eBGP fan-out carries
`router_id = -1` and `src = "ebgp"`; a WITHDRAW in `withdraw`'s eBGP
fan-out carries `router_id = id_of(local)` and `src = "ibgp"` when the
removed best was not iBGP-sourced (and the AS graph is nonempty, which
holds for every registered router), and `router_id = -1`, `src = "ebgp"`
otherwise.  The receiver's withdraw handler re-stamps only `pref` before
the seven-field membership test, so in either shape such a WITHDRAW
matches no stored externally-learned route (those carry the announcing
neighbour's registered id and `src = "ebgp"`), and removes nothing: in the
three-router steady state, r1 retains both the superseded `(3,2)` route
and the `(2,)` route even though a WITHDRAW for the `(3,2)` shadow was
delivered to it. -/
theorem C6_withdraw_rid_amended :
    (∀ (route : BGPRoute) (type_rel : String) (prevBest : Option BGPRoute)
      (a cid : Int) (nb : String × EdgeData) (s : Send),
      s ∈ updateEbgpSendsFor route type_rel prevBest a cid nb →
      s.2.2 = BGPMessage.WITHDRAW →
      s.1.router_id = -1 ∧ s.1.src = "ebgp") ∧
    (∀ (net : BGPNetwork) (best newBest : BGPRoute) (a cid : Int)
      (nb : String × EdgeData) (s : Send),
      s ∈ withdrawEbgpSendsFor (withdrawToRemove net best a cid) newBest a cid nb →
      s.2.2 = BGPMessage.WITHDRAW →
      (if best.src ≠ "ibgp" ∧ asNodeNames net a ≠ [] then
        s.1.router_id = cid ∧ s.1.src = "ibgp"
      else s.1.router_id = -1 ∧ s.1.src = "ebgp")) ∧
    getTable net3 "r1" "10.0.2.0" =
      [⟨"10.0.2.0", "10.0.3.3", [3, 2], 50, 0, 3, "ebgp"⟩,
       ⟨"10.0.2.0", "10.0.2.2", [2], 150, 0, 2, "ebgp"⟩] ∧
    ((⟨"10.0.2.0", "10.0.3.3", [3, 2], -1, 0, -1, "ebgp"⟩ : BGPRoute), "r1", "r3",
      BGPMessage.WITHDRAW) ∈ net3.trace := by
  refine ⟨?_, ?_, by decide, by decide⟩
  · intro route type_rel prevBest a cid nb s hs hty
    by_cases hint : nb.2.type = "internal"
    · simp [updateEbgpSendsFor, hint] at hs
    · rcases prevBest with _ | pb
      · exfalso
        by_cases hg : type_rel ≠ "customer" ∧ nb.2.type ≠ "customer" <;>
          simp [updateEbgpSendsFor, hint, hg] at hs <;>
            rw [hs] at hty <;> exact absurd hty (by simp)
      · by_cases hg : type_rel ≠ "customer" ∧ nb.2.type ≠ "customer" <;>
          simp [updateEbgpSendsFor, hint, hg] at hs
        · rw [hs]; exact ⟨rfl, rfl⟩
        · rcases hs with hs | hs
          · rw [hs]; exact ⟨rfl, rfl⟩
          · exfalso; rw [hs] at hty; exact absurd hty (by simp)
  · intro net best newBest a cid nb s hs hty
    by_cases hint : nb.2.type = "internal"
    · simp [withdrawEbgpSendsFor, hint] at hs
    · have hw : s.1.router_id = (withdrawToRemove net best a cid).router_id ∧
          s.1.src = (withdrawToRemove net best a cid).src := by
        by_cases hg : newBest.pref ≠ 150 ∧ nb.2.type ≠ "customer" <;>
          simp [withdrawEbgpSendsFor, hint, hg] at hs
        · rw [hs]; exact ⟨rfl, rfl⟩
        · rcases hs with hs | hs
          · rw [hs]; exact ⟨rfl, rfl⟩
          · exfalso; rw [hs] at hty; exact absurd hty (by simp)
      by_cases hc : best.src ≠ "ibgp" ∧ asNodeNames net a ≠ [] <;>
        simp only [withdrawToRemove, hc, if_pos, if_neg, if_true, if_false] at hw <;>
        simp [hc, hw]

/-- Witness for C6 (amended): a concrete WITHDRAW member of each eBGP
fan-out list, with the shape each part asserts. -/
theorem C6_witness :
    ((⟨"10.0.2.0", "10.0.1.1", (1 : Int) :: [3, 2], -1, 5, -1, "ebgp"⟩ :
        BGPRoute).router_id = -1 ∧
      (⟨"10.0.2.0", "10.0.1.1", (1 : Int) :: [3, 2], -1, 5, -1, "ebgp"⟩ :
        BGPRoute).src = "ebgp") ∧
    (if (⟨"10.0.2.0", "10.0.2.2", [2], 150, 0, 2, "ebgp"⟩ : BGPRoute).src ≠ "ibgp" ∧
        asNodeNames bld2 1 ≠ [] then
      ({ withdrawToRemove bld2
          (⟨"10.0.2.0", "10.0.2.2", [2], 150, 0, 2, "ebgp"⟩ : BGPRoute) 1 1 with
          med := 0 } : BGPRoute).router_id = 1 ∧
      ({ withdrawToRemove bld2
          (⟨"10.0.2.0", "10.0.2.2", [2], 150, 0, 2, "ebgp"⟩ : BGPRoute) 1 1 with
          med := 0 } : BGPRoute).src = "ibgp"
    else
      ({ withdrawToRemove bld2
          (⟨"10.0.2.0", "10.0.2.2", [2], 150, 0, 2, "ebgp"⟩ : BGPRoute) 1 1 with
          med := 0 } : BGPRoute).router_id = -1 ∧
      ({ withdrawToRemove bld2
          (⟨"10.0.2.0", "10.0.2.2", [2], 150, 0, 2, "ebgp"⟩ : BGPRoute) 1 1 with
          med := 0 } : BGPRoute).src = "ebgp") := by
  constructor
  · exact C6_withdraw_rid_amended.1
      (⟨"10.0.2.0", "10.0.3.3", [3, 2], 50, 0, 3, "ebgp"⟩) "provider"
      (some (⟨"10.0.2.0", "10.0.3.3", [3, 2], 50, 0, 3, "ebgp"⟩)) 1 1
      ("rx", ⟨"customer", some 5, none⟩)
      ((⟨"10.0.2.0", "10.0.1.1", (1 : Int) :: [3, 2], -1, 5, -1, "ebgp"⟩ : BGPRoute),
        "rx", BGPMessage.WITHDRAW) (by decide) (by decide)
  · exact C6_withdraw_rid_amended.2.1 bld2
      (⟨"10.0.2.0", "10.0.2.2", [2], 150, 0, 2, "ebgp"⟩)
      (⟨"10.0.2.0", "10.0.2.2", [2], 150, 0, 2, "ebgp"⟩) 1 1
      ("r2", ⟨"customer", some 0, none⟩)
      (({ withdrawToRemove bld2
          (⟨"10.0.2.0", "10.0.2.2", [2], 150, 0, 2, "ebgp"⟩ : BGPRoute) 1 1 with
          med := 0 } : BGPRoute), "r2", BGPMessage.WITHDRAW) (by decide) (by decide)

/-! ## C4: stage-1/2 optimality and the MED partitioning -/

theorem routeLt_spec (r b : BGPRoute) :
    routeLt r b = true ↔
      b.pref < r.pref ∨
        (r.pref = b.pref ∧ r.as_path.length < b.as_path.length) := by
  unfold routeLt
  by_cases hp : r.pref = b.pref <;>
    by_cases hl : r.as_path.length = b.as_path.length <;>
    simp [hp, hl]

theorem ge12_refl (b : BGPRoute) : ge12 b b := Or.inr ⟨rfl, le_refl _⟩

theorem ge12_trans {a b c : BGPRoute} (h1 : ge12 a b) (h2 : ge12 b c) : ge12 a c := by
  unfold ge12 at h1 h2 ⊢
  omega

theorem fpStep_ge (b r : BGPRoute) :
    ge12 (if routeLt r b then r else b) b ∧ ge12 (if routeLt r b then r else b) r := by
  by_cases h : routeLt r b = true
  · rw [if_pos h]
    rw [routeLt_spec] at h
    unfold ge12
    constructor <;> omega
  · rw [if_neg h]
    rw [routeLt_spec] at h
    unfold ge12
    constructor <;> omega

theorem fp_go_ge (l : List BGPRoute) :
    ∀ b : BGPRoute, ge12 (firstPassGo l b) b ∧ ∀ s ∈ l, ge12 (firstPassGo l b) s := by
  induction l with
  | nil =>
    intro b
    exact ⟨ge12_refl b, by simp⟩
  | cons r t ih =>
    intro b
    have hstep := fpStep_ge b r
    have hgo : firstPassGo (r :: t) b = firstPassGo t (if routeLt r b then r else b) :=
      rfl
    rw [hgo]
    obtain ⟨h1, h2⟩ := ih (if routeLt r b then r else b)
    refine ⟨ge12_trans h1 hstep.1, ?_⟩
    intro s hs
    rcases List.mem_cons.mp hs with hs | hs
    · subst hs
      exact ge12_trans h1 hstep.2
    · exact h2 s hs

theorem fp_best_props (routes : List BGPRoute) (best : BGPRoute)
    (h : firstPassBest routes = some best) :
    best ∈ routes ∧ ∀ s ∈ routes, ge12 best s := by
  cases routes with
  | nil => simp [firstPassBest] at h
  | cons r0 t =>
    have hb : best = firstPassGo t r0 := by
      simpa [firstPassBest] using h.symm
    subst hb
    obtain ⟨h1, h2⟩ := fp_go_ge t r0
    constructor
    · rcases foldl_choice_mem (fun b r => if routeLt r b then r else b)
          (fun b r => by by_cases h : routeLt r b = true <;> simp [h]) t r0 with
        hm | hm
      · have hm' : firstPassGo t r0 = r0 := hm
        rw [hm']
        exact List.mem_cons_self _ _
      · exact List.mem_cons_of_mem _ hm
    · intro s hs
      rcases List.mem_cons.mp hs with hs | hs
      · subst hs; exact h1
      · exact h2 s hs

theorem medCand_mono (best s : BGPRoute) (seen : List BGPRoute) (y : BGPRoute)
    (h : medCand best seen y) : medCand best (seen ++ [s]) y := by
  rcases h with h | ⟨h1, h2, h3⟩
  · exact Or.inl h
  · exact Or.inr ⟨List.mem_append_left _ h1, h2, h3⟩

theorem aget_append_none {κ β : Type} [DecidableEq κ] (d e : List (κ × β)) (k : κ)
    (h : aget d k = none) : aget (d ++ e) k = aget e k := by
  induction d with
  | nil => simp
  | cons x t ih =>
    obtain ⟨a, b⟩ := x
    by_cases hak : a = k
    · simp [aget, hak] at h
    · have h' : aget t k = none := by simpa [aget, hak] using h
      simpa [aget, hak] using ih h'

theorem aget_append_some {κ β : Type} [DecidableEq κ] (d e : List (κ × β)) (k : κ)
    (v : β) (h : aget d k = some v) : aget (d ++ e) k = some v := by
  induction d with
  | nil => simp [aget] at h
  | cons x t ih =>
    obtain ⟨a, b⟩ := x
    by_cases hak : a = k
    · simpa [aget, hak] using h
    · have h' : aget t k = some v := by simpa [aget, hak] using h
      simpa [aget, hak] using ih h'

theorem medInv_init (best : BGPRoute) :
    MedInv best [] [(best.as_path.headI, [best])] := by
  constructor
  · intro k l hkl
    by_cases hk : best.as_path.headI = k
    · simp [aget, hk] at hkl
      subst hkl
      refine ⟨by simp, best.med, ?_, ?_⟩
      · intro x hx
        simp at hx
        subst hx
        exact ⟨rfl, hk, Or.inl rfl⟩
      · intro y hy hyk
        rcases hy with hy | ⟨hy1, _⟩
        · subst hy; exact ⟨le_refl _, fun _ => by simp⟩
        · simp at hy1
    · simp [aget, hk] at hkl
  · intro k hk y hy hyk
    rcases hy with hy | ⟨hy1, _⟩
    · subst hy
      simp [aget, hyk] at hk
    · simp at hy1

theorem medStep_inv (best s : BGPRoute) (seen : List BGPRoute)
    (d : List (Int × List BGPRoute)) (hinv : MedInv best seen d) :
    MedInv best (seen ++ [s])
      (if s.pref ≠ best.pref ∨ s.as_path.length ≠ best.as_path.length then d
       else medInsert d s.as_path.headI s) := by
  obtain ⟨hsome, hnone⟩ := hinv
  by_cases hSur : s.pref ≠ best.pref ∨ s.as_path.length ≠ best.as_path.length
  · rw [if_pos hSur]
    have hcand : ∀ y, medCand best (seen ++ [s]) y → medCand best seen y := by
      intro y hy
      rcases hy with hy | ⟨hy1, hy2, hy3⟩
      · exact Or.inl hy
      · rcases List.mem_append.mp hy1 with h | h
        · exact Or.inr ⟨h, hy2, hy3⟩
        · exfalso
          simp at h
          subst h
          rcases hSur with h | h
          exacts [h hy2, h hy3]
    constructor
    · intro k l hkl
      obtain ⟨hne, m, hx, hy⟩ := hsome k l hkl
      refine ⟨hne, m, ?_, ?_⟩
      · intro x hxl
        obtain ⟨e1, e2, e3⟩ := hx x hxl
        exact ⟨e1, e2, medCand_mono best s seen x e3⟩
      · intro y hy' hk
        exact hy y (hcand y hy') hk
    · intro k hk y hy
      exact hnone k hk y (hcand y hy)
  · rw [if_neg hSur]
    push_neg at hSur
    obtain ⟨hp, hl⟩ := hSur
    have hcand_s : medCand best (seen ++ [s]) s :=
      Or.inr ⟨List.mem_append_right _ (by simp), hp, hl⟩
    have hcases : ∀ y, medCand best (seen ++ [s]) y →
        medCand best seen y ∨ y = s := by
      intro y hy
      rcases hy with hy | ⟨hy1, hy2, hy3⟩
      · exact Or.inl (Or.inl hy)
      · rcases List.mem_append.mp hy1 with h | h
        · exact Or.inl (Or.inr ⟨h, hy2, hy3⟩)
        · simp at h; exact Or.inr h
    rcases haget : aget d s.as_path.headI with _ | l
    · -- new key: append the singleton partition
      have hred : medInsert d s.as_path.headI s = d ++ [(s.as_path.headI, [s])] := by
        rw [medInsert, haget]
      rw [hred]
      constructor
      · intro k l2 hkl2
        by_cases hk : s.as_path.headI = k
        · subst hk
          rw [aget_append_none _ _ _ haget] at hkl2
          simp [aget] at hkl2
          subst hkl2
          refine ⟨by simp, s.med, ?_, ?_⟩
          · intro x hx
            simp at hx
            subst hx
            exact ⟨rfl, rfl, hcand_s⟩
          · intro y hy hyk
            rcases hcases y hy with hy' | hy'
            · exact absurd hyk (hnone _ haget y hy')
            · subst hy'
              exact ⟨le_refl _, fun _ => by simp⟩
        · rcases hagk : aget d k with _ | v
          · rw [aget_append_none _ _ _ hagk] at hkl2
            simp [aget, hk] at hkl2
          · rw [aget_append_some _ _ _ _ hagk] at hkl2
            obtain ⟨hne, m, hx, hy⟩ := hsome k l2 (by rw [hagk, hkl2])
            refine ⟨hne, m, ?_, ?_⟩
            · intro x hxl
              obtain ⟨e1, e2, e3⟩ := hx x hxl
              exact ⟨e1, e2, medCand_mono best s seen x e3⟩
            · intro y hy' hyk
              rcases hcases y hy' with hc | hc
              · exact hy y hc hyk
              · subst hc
                exact absurd hyk hk
      · intro k hk y hy hyk
        by_cases hks : s.as_path.headI = k
        · subst hks
          rw [aget_append_none _ _ _ haget] at hk
          simp [aget] at hk
        · rcases hcases y hy with hc | hc
          · rcases hagk : aget d k with _ | v
            · exact hnone k hagk y hc hyk
            · rw [aget_append_some _ _ _ _ hagk] at hk
              simp at hk
          · subst hc
            exact hks hyk
    · -- existing key
      obtain ⟨hneL, m, hx, hy⟩ := hsome _ l haget
      cases l with
      | nil => exact absurd rfl hneL
      | cons x0 l' =>
        have hred : medInsert d s.as_path.headI s =
            (if s.med < x0.med then aset d s.as_path.headI [s]
             else if x0.med = s.med then aset d s.as_path.headI ((x0 :: l') ++ [s])
             else d) := by
          rw [medInsert, haget]
        rw [hred]
        have hx0 := hx x0 (List.mem_cons_self _ _)
        by_cases hlt : s.med < x0.med
        · rw [if_pos hlt]
          constructor
          · intro k l2 hkl2
            rw [aget_aset] at hkl2
            by_cases hk : s.as_path.headI = k
            · rw [if_pos hk] at hkl2
              injection hkl2 with hkl2
              subst hkl2
              refine ⟨by simp, s.med, ?_, ?_⟩
              · intro x hxm
                simp at hxm
                subst hxm
                exact ⟨rfl, hk, hcand_s⟩
              · intro y hy' hyk
                rcases hcases y hy' with hc | hc
                · have hge := hy y hc (hk ▸ hyk)
                  have : m = x0.med := hx0.1.symm
                  refine ⟨by omega, fun heq => by omega⟩
                · subst hc
                  exact ⟨le_refl _, fun _ => by simp⟩
            · rw [if_neg hk] at hkl2
              obtain ⟨hne2, m2, hx2, hy2⟩ := hsome k l2 hkl2
              refine ⟨hne2, m2, ?_, ?_⟩
              · intro x hxl
                obtain ⟨e1, e2, e3⟩ := hx2 x hxl
                exact ⟨e1, e2, medCand_mono best s seen x e3⟩
              · intro y hy' hyk
                rcases hcases y hy' with hc | hc
                · exact hy2 y hc hyk
                · subst hc; exact absurd hyk hk
          · intro k hk y hy' hyk
            rw [aget_aset] at hk
            by_cases hks : s.as_path.headI = k
            · rw [if_pos hks] at hk; simp at hk
            · rw [if_neg hks] at hk
              rcases hcases y hy' with hc | hc
              · exact hnone k hk y hc hyk
              · subst hc; exact hks hyk
        · rw [if_neg hlt]
          by_cases heq : x0.med = s.med
          · rw [if_pos heq]
            constructor
            · intro k l2 hkl2
              rw [aget_aset] at hkl2
              by_cases hk : s.as_path.headI = k
              · rw [if_pos hk] at hkl2
                injection hkl2 with hkl2
                subst hkl2
                refine ⟨by simp, m, ?_, ?_⟩
                · intro x hxm
                  rcases List.mem_append.mp hxm with hc | hc
                  · obtain ⟨e1, e2, e3⟩ := hx x hc
                    exact ⟨e1, hk ▸ e2, medCand_mono best s seen x e3⟩
                  · simp at hc
                    subst hc
                    have : m = x0.med := hx0.1.symm
                    exact ⟨by omega, hk, hcand_s⟩
                · intro y hy' hyk
                  rcases hcases y hy' with hc | hc
                  · obtain ⟨e1, e2⟩ := hy y hc (hk ▸ hyk)
                    exact ⟨e1, fun h => List.mem_append_left _ (e2 h)⟩
                  · subst hc
                    have : m = x0.med := hx0.1.symm
                    exact ⟨by omega, fun _ => List.mem_append_right _ (by simp)⟩
              · rw [if_neg hk] at hkl2
                obtain ⟨hne2, m2, hx2, hy2⟩ := hsome k l2 hkl2
                refine ⟨hne2, m2, ?_, ?_⟩
                · intro x hxl
                  obtain ⟨e1, e2, e3⟩ := hx2 x hxl
                  exact ⟨e1, e2, medCand_mono best s seen x e3⟩
                · intro y hy' hyk
                  rcases hcases y hy' with hc | hc
                  · exact hy2 y hc hyk
                  · subst hc; exact absurd hyk hk
            · intro k hk y hy' hyk
              rw [aget_aset] at hk
              by_cases hks : s.as_path.headI = k
              · rw [if_pos hks] at hk; simp at hk
              · rw [if_neg hks] at hk
                rcases hcases y hy' with hc | hc
                · exact hnone k hk y hc hyk
                · subst hc; exact hks hyk
          · rw [if_neg heq]
            constructor
            · intro k l2 hkl2
              obtain ⟨hne2, m2, hx2, hy2⟩ := hsome k l2 hkl2
              refine ⟨hne2, m2, ?_, ?_⟩
              · intro x hxl
                obtain ⟨e1, e2, e3⟩ := hx2 x hxl
                exact ⟨e1, e2, medCand_mono best s seen x e3⟩
              · intro y hy' hyk
                rcases hcases y hy' with hc | hc
                · exact hy2 y hc hyk
                · have hks : s.as_path.headI = k := by rw [← hc]; exact hyk
                  have hll : l2 = x0 :: l' := by
                    rw [← hks, haget] at hkl2
                    injection hkl2 with hh
                    exact hh.symm
                  have hm2 : x0.med = m2 :=
                    (hx2 x0 (by rw [hll]; exact List.mem_cons_self _ _)).1
                  have hmx : m = x0.med := hx0.1.symm
                  rw [hc]
                  constructor
                  · omega
                  · intro hcon
                    exfalso
                    omega
            · intro k hk y hy' hyk
              rcases hcases y hy' with hc | hc
              · exact hnone k hk y hc hyk
              · subst hc
                rw [hyk] at haget
                simp [haget] at hk

theorem medGroups_inv (best : BGPRoute) :
    ∀ (l seen : List BGPRoute) (d : List (Int × List BGPRoute)),
      MedInv best seen d →
      MedInv best (seen ++ l)
        (l.foldl
          (fun d r =>
            if r.pref ≠ best.pref ∨ r.as_path.length ≠ best.as_path.length then d
            else medInsert d r.as_path.headI r)
          d) := by
  intro l
  induction l with
  | nil =>
    intro seen d h
    simpa using h
  | cons s t ih =>
    intro seen d h
    have h1 := medStep_inv best s seen d h
    have h2 := ih (seen ++ [s]) _ h1
    simpa [List.foldl_cons, List.append_assoc] using h2

/-- C4: MED partitioning of `decision_process`.  First conjunct: the
stage-1/2 winner has maximal pref and, among max-pref routes, minimal
AS-path length.  Second conjunct: every stage-1/2 survivor whose `med` is
minimal within its `as_path[0]` partition is among the routes advancing to
the final tiebreak.  Third conjunct: two such survivors with different
leftmost ASes both advance — MED never eliminates across partitions. -/
theorem C4_med_partition :
    (∀ (routes : List BGPRoute) (best : BGPRoute),
      firstPassBest routes = some best →
      ∀ s ∈ routes, s.pref ≤ best.pref ∧
        (s.pref = best.pref → best.as_path.length ≤ s.as_path.length)) ∧
    (∀ (routes : List BGPRoute) (best r : BGPRoute),
      firstPassBest routes = some best →
      r ∈ routes → r.pref = best.pref → r.as_path.length = best.as_path.length →
      (∀ s ∈ routes, s.pref = best.pref → s.as_path.length = best.as_path.length →
        s.as_path.headI = r.as_path.headI → r.med ≤ s.med) →
      r ∈ medSurvivors routes best) ∧
    (∀ (routes : List BGPRoute) (best r s : BGPRoute),
      firstPassBest routes = some best →
      r ∈ routes → r.pref = best.pref → r.as_path.length = best.as_path.length →
      s ∈ routes → s.pref = best.pref → s.as_path.length = best.as_path.length →
      r.as_path.headI ≠ s.as_path.headI →
      (∀ u ∈ routes, u.pref = best.pref → u.as_path.length = best.as_path.length →
        u.as_path.headI = r.as_path.headI → r.med ≤ u.med) →
      (∀ u ∈ routes, u.pref = best.pref → u.as_path.length = best.as_path.length →
        u.as_path.headI = s.as_path.headI → s.med ≤ u.med) →
      r ∈ medSurvivors routes best ∧ s ∈ medSurvivors routes best) := by
  have hmain : ∀ (routes : List BGPRoute) (best r : BGPRoute),
      firstPassBest routes = some best →
      r ∈ routes → r.pref = best.pref → r.as_path.length = best.as_path.length →
      (∀ s ∈ routes, s.pref = best.pref → s.as_path.length = best.as_path.length →
        s.as_path.headI = r.as_path.headI → r.med ≤ s.med) →
      r ∈ medSurvivors routes best := by
    intro routes best r hfp hr hrp hrl hmin
    have hinv0 : MedInv best ([] ++ routes) (medGroups routes best) :=
      medGroups_inv best routes [] [(best.as_path.headI, [best])] (medInv_init best)
    have hinv : MedInv best routes (medGroups routes best) := by
      simpa using hinv0
    obtain ⟨hsome, hnone⟩ := hinv
    have hcand_r : medCand best routes r := Or.inr ⟨hr, hrp, hrl⟩
    rcases hag : aget (medGroups routes best) r.as_path.headI with _ | l
    · exact absurd rfl (hnone _ hag r hcand_r)
    · obtain ⟨hneL, m, hx, hy⟩ := hsome _ l hag
      obtain ⟨hle, hin⟩ := hy r hcand_r rfl
      cases l with
      | nil => exact absurd rfl hneL
      | cons x0 l' =>
        obtain ⟨hx0m, hx0k, hx0c⟩ := hx x0 (List.mem_cons_self _ _)
        have hbestmem := (fp_best_props routes best hfp).1
        have hx0r : x0 ∈ routes ∧ x0.pref = best.pref ∧
            x0.as_path.length = best.as_path.length := by
          rcases hx0c with hc | hc
          · subst hc; exact ⟨hbestmem, rfl, rfl⟩
          · exact hc
        have hrm : r.med ≤ x0.med := hmin x0 hx0r.1 hx0r.2.1 hx0r.2.2 hx0k
        have hreq : r.med = m := le_antisymm (hx0m ▸ hrm) hle
        have hrl2 : r ∈ x0 :: l' := hin hreq
        exact List.mem_flatten.mpr
          ⟨x0 :: l',
            List.mem_map.mpr ⟨(r.as_path.headI, x0 :: l'), aget_mem _ _ _ hag, rfl⟩,
            hrl2⟩
  refine ⟨?_, hmain, ?_⟩
  · intro routes best hfp s hs
    have h := (fp_best_props routes best hfp).2 s hs
    unfold ge12 at h
    constructor
    · omega
    · intro hp; omega
  · intro routes best r s hfp hr hrp hrl hs hsp hsl _ hminr hmins
    exact ⟨hmain routes best r hfp hr hrp hrl hminr,
      hmain routes best s hfp hs hsp hsl hmins⟩

/-- Witness for C4: two routes of equal pref and path length but different
leftmost ASes and different MEDs both advance past the MED stage. -/
theorem C4_witness :
    (⟨"10.0.2.0", "10.0.4.4", [4, 2], 100, 5, 4, "ebgp"⟩ : BGPRoute) ∈
      medSurvivors
        [⟨"10.0.2.0", "10.0.4.4", [4, 2], 100, 5, 4, "ebgp"⟩,
         ⟨"10.0.2.0", "10.0.5.5", [5, 2], 100, 0, 5, "ebgp"⟩]
        (⟨"10.0.2.0", "10.0.4.4", [4, 2], 100, 5, 4, "ebgp"⟩) ∧
    (⟨"10.0.2.0", "10.0.5.5", [5, 2], 100, 0, 5, "ebgp"⟩ : BGPRoute) ∈
      medSurvivors
        [⟨"10.0.2.0", "10.0.4.4", [4, 2], 100, 5, 4, "ebgp"⟩,
         ⟨"10.0.2.0", "10.0.5.5", [5, 2], 100, 0, 5, "ebgp"⟩]
        (⟨"10.0.2.0", "10.0.4.4", [4, 2], 100, 5, 4, "ebgp"⟩) :=
  C4_med_partition.2.2
    [⟨"10.0.2.0", "10.0.4.4", [4, 2], 100, 5, 4, "ebgp"⟩,
     ⟨"10.0.2.0", "10.0.5.5", [5, 2], 100, 0, 5, "ebgp"⟩]
    (⟨"10.0.2.0", "10.0.4.4", [4, 2], 100, 5, 4, "ebgp"⟩)
    (⟨"10.0.2.0", "10.0.4.4", [4, 2], 100, 5, 4, "ebgp"⟩)
    (⟨"10.0.2.0", "10.0.5.5", [5, 2], 100, 0, 5, "ebgp"⟩)
    (by decide) (by decide) (by decide) (by decide) (by decide) (by decide)
    (by decide) (by decide) (by decide) (by decide)

/-! ## C3: the final tiebreak stages and the IGP distance -/

theorem tb_src_left (net : BGPNetwork) (router : String) (b r : BGPRoute)
    (hb : b.src = "ebgp") (hr : r.src = "ibgp") : tiebreak net router b r = b := by
  have hne : r.src ≠ b.src := by rw [hb, hr]; decide
  rw [tiebreak, if_pos hne, if_pos hb]

theorem tb_src_right (net : BGPNetwork) (router : String) (b r : BGPRoute)
    (hb : b.src = "ibgp") (hr : r.src = "ebgp") : tiebreak net router b r = r := by
  have hne : r.src ≠ b.src := by rw [hb, hr]; decide
  have hbe : ¬b.src = "ebgp" := by rw [hb]; decide
  rw [tiebreak, if_pos hne, if_neg hbe]

theorem tb_dist_right (net : BGPNetwork) (router : String) (b r : BGPRoute)
    (hb : b.src = "ibgp") (hr : r.src = "ibgp")
    (hd : distance net router r.nexthop < distance net router b.nexthop) :
    tiebreak net router b r = r := by
  have hsrc : ¬r.src ≠ b.src := by rw [hb, hr]; decide
  have hne : distance net router r.nexthop ≠ distance net router b.nexthop :=
    Nat.ne_of_lt hd
  have hnl : ¬distance net router b.nexthop < distance net router r.nexthop :=
    Nat.not_lt.mpr (Nat.le_of_lt hd)
  rw [tiebreak, if_neg hsrc, if_pos ⟨hr, hne⟩, if_neg hnl]

theorem tb_dist_left (net : BGPNetwork) (router : String) (b r : BGPRoute)
    (hb : b.src = "ibgp") (hr : r.src = "ibgp")
    (hd : distance net router b.nexthop < distance net router r.nexthop) :
    tiebreak net router b r = b := by
  have hsrc : ¬r.src ≠ b.src := by rw [hb, hr]; decide
  have hne : distance net router r.nexthop ≠ distance net router b.nexthop :=
    Nat.ne_of_gt hd
  rw [tiebreak, if_neg hsrc, if_pos ⟨hr, hne⟩, if_pos hd]

theorem tb_rid_left (net : BGPNetwork) (router : String) (b r : BGPRoute)
    (hsrc : r.src = b.src)
    (hd : r.src = "ibgp" →
      distance net router r.nexthop = distance net router b.nexthop)
    (hid : b.router_id < r.router_id) : tiebreak net router b r = b := by
  have hsrc' : ¬r.src ≠ b.src := by simp [hsrc]
  have hc2 : ¬(r.src = "ibgp" ∧
      distance net router r.nexthop ≠ distance net router b.nexthop) :=
    fun hh => hh.2 (hd hh.1)
  rw [tiebreak, if_neg hsrc', if_neg hc2, if_pos hid]

theorem tb_rid_right (net : BGPNetwork) (router : String) (b r : BGPRoute)
    (hsrc : r.src = b.src)
    (hd : r.src = "ibgp" →
      distance net router r.nexthop = distance net router b.nexthop)
    (hid : r.router_id < b.router_id) : tiebreak net router b r = r := by
  have hsrc' : ¬r.src ≠ b.src := by simp [hsrc]
  have hc2 : ¬(r.src = "ibgp" ∧
      distance net router r.nexthop ≠ distance net router b.nexthop) :=
    fun hh => hh.2 (hd hh.1)
  have hid' : ¬b.router_id < r.router_id := by omega
  rw [tiebreak, if_neg hsrc', if_neg hc2, if_neg hid']

theorem distance_self_eq_one (net : BGPNetwork) (router : String)
    (h : (aget (asGraphOf net (asOfD net router)).nodes (addrOf net router)).isSome) :
    distance net router (addrOf net router) = 1 := by
  rw [distance, dijkstra_path, if_pos h]
  simp [dijkstraLoop, popMin]

/-- C3: the final tiebreak fold of `decision_process`.  When the compared
routes' `src` tags differ (one `ebgp`, one `ibgp`), the eBGP route wins;
when both are iBGP and the IGP distances of their nexthops differ, the
strictly smaller distance wins; in every remaining tie the route with the
lower `router_id` is selected.  The distance used is
`BGPNetwork.distance`: the number of vertices on the Dijkstra weighted
shortest path in the AS's internal graph, which equals 1 when the nexthop
is the querying router's own address (last conjunct; the hypothesis is
that the router's address is a node of its AS graph, as `add_router`
guarantees). -/
theorem C3_tiebreak_stages :
    (∀ (net : BGPNetwork) (router : String) (b r : BGPRoute),
      b.src = "ebgp" → r.src = "ibgp" → tiebreak net router b r = b) ∧
    (∀ (net : BGPNetwork) (router : String) (b r : BGPRoute),
      b.src = "ibgp" → r.src = "ebgp" → tiebreak net router b r = r) ∧
    (∀ (net : BGPNetwork) (router : String) (b r : BGPRoute),
      b.src = "ibgp" → r.src = "ibgp" →
      distance net router r.nexthop < distance net router b.nexthop →
      tiebreak net router b r = r) ∧
    (∀ (net : BGPNetwork) (router : String) (b r : BGPRoute),
      b.src = "ibgp" → r.src = "ibgp" →
      distance net router b.nexthop < distance net router r.nexthop →
      tiebreak net router b r = b) ∧
    (∀ (net : BGPNetwork) (router : String) (b r : BGPRoute),
      r.src = b.src →
      (r.src = "ibgp" →
        distance net router r.nexthop = distance net router b.nexthop) →
      b.router_id < r.router_id → tiebreak net router b r = b) ∧
    (∀ (net : BGPNetwork) (router : String) (b r : BGPRoute),
      r.src = b.src →
      (r.src = "ibgp" →
        distance net router r.nexthop = distance net router b.nexthop) →
      r.router_id < b.router_id → tiebreak net router b r = r) ∧
    (∀ (net : BGPNetwork) (router : String),
      (aget (asGraphOf net (asOfD net router)).nodes (addrOf net router)).isSome →
      distance net router (addrOf net router) = 1) :=
  ⟨tb_src_left, tb_src_right, tb_dist_right, tb_dist_left, tb_rid_left, tb_rid_right,
    distance_self_eq_one⟩

/-- Witness for C3: the eBGP route beats the iBGP route in the fold, and
the distance of r1 to its own address in the two-router topology is 1. -/
theorem C3_witness :
    tiebreak bld2 "r1" (⟨"10.0.2.0", "10.0.1.1", [2], 100, 0, 2, "ebgp"⟩)
        (⟨"10.0.2.0", "10.0.1.2", [2], 100, 0, 1, "ibgp"⟩) =
      (⟨"10.0.2.0", "10.0.1.1", [2], 100, 0, 2, "ebgp"⟩ : BGPRoute) ∧
    distance bld2 "r1" (addrOf bld2 "r1") = 1 := by
  constructor
  · exact C3_tiebreak_stages.1 bld2 "r1" _ _ (by decide) (by decide)
  · exact C3_tiebreak_stages.2.2.2.2.2.2 bld2 "r1" (by decide)

/-! ## C1: loop freedom -/

/-- Table lookup after writing one whole (router, prefix) entry: only that
entry is affected.  Covers `putRoute`, `removeRoute`, the entry overwrite
of `announce_pfx`, and its in-place med aliasing. -/
theorem getTable_setEntry (net : BGPNetwork) (c p : String) (rs : List BGPRoute)
    (S q : String) :
    getTable
      { net with bgp_tables := aset net.bgp_tables c (aset (lookupTbl net c) p rs) }
      S q = if c = S ∧ p = q then rs else getTable net S q := by
  by_cases hc : c = S
  · subst hc
    by_cases hp : p = q
    · subst hp
      simp [getTable, lookupTbl, aget_aset]
    · simp [getTable, lookupTbl, aget_aset, hp]
  · simp [getTable, lookupTbl, aget_aset, hc]

theorem asOfD_tables (net : BGPNetwork) (tbls : List (String × List (String × List BGPRoute)))
    (R : String) : asOfD { net with bgp_tables := tbls } R = asOfD net R := rfl

theorem inv_putRoute (net : BGPNetwork) (c p : String) (r : BGPRoute)
    (hInv : LoopFreeExceptSelf net) (hr : asOfD net c ∉ r.as_path) :
    LoopFreeExceptSelf (putRoute net c p r) := by
  intro R p' r' hmem
  rw [getTable_putRoute] at hmem
  have hgoal : asOfD (putRoute net c p r) R = asOfD net R := rfl
  rw [hgoal]
  by_cases hcase : c = R ∧ p = p'
  · rw [if_pos hcase] at hmem
    by_cases hin : r ∈ getTable net c p
    · rw [if_pos hin] at hmem
      rw [← hcase.1]
      exact hInv c p r' hmem
    · rw [if_neg hin] at hmem
      rcases List.mem_append.mp hmem with h | h
      · rw [← hcase.1]
        exact hInv c p r' h
      · simp at h
        subst h
        rw [← hcase.1]
        exact Or.inl hr
  · rw [if_neg hcase] at hmem
    exact hInv R p' r' hmem

theorem inv_removeRoute (net : BGPNetwork) (c p : String) (r : BGPRoute)
    (hInv : LoopFreeExceptSelf net) :
    LoopFreeExceptSelf (removeRoute net c p r) := by
  intro R p' r' hmem
  rw [getTable_removeRoute] at hmem
  have hgoal : asOfD (removeRoute net c p r) R = asOfD net R := rfl
  rw [hgoal]
  by_cases hcase : c = R ∧ p = p'
  · rw [if_pos hcase] at hmem
    rw [← hcase.1]
    exact hInv c p r' (List.mem_of_mem_erase hmem)
  · rw [if_neg hcase] at hmem
    exact hInv R p' r' hmem

theorem inv_trace (net : BGPNetwork) (t : List TraceEntry)
    (hInv : LoopFreeExceptSelf net) :
    LoopFreeExceptSelf { net with trace := t } := hInv

theorem inv_setSelf (net : BGPNetwork) (R p : String) (r : BGPRoute)
    (hInv : LoopFreeExceptSelf net)
    (h1 : r.pref = 1000) (h2 : r.router_id = -1) (h3 : r.src = "ebgp")
    (h4 : r.as_path = [asOfD net R]) :
    LoopFreeExceptSelf { net with
      bgp_tables := aset net.bgp_tables R (aset (lookupTbl net R) p [r]) } := by
  intro S p' r' hmem
  rw [getTable_setEntry] at hmem
  have hgoal : asOfD { net with
      bgp_tables := aset net.bgp_tables R (aset (lookupTbl net R) p [r]) } S =
      asOfD net S := rfl
  rw [hgoal]
  by_cases hcase : R = S ∧ p = p'
  · rw [if_pos hcase] at hmem
    simp at hmem
    subst hmem
    rw [← hcase.1]
    exact Or.inr ⟨h1, h2, h3, h4⟩
  · rw [if_neg hcase] at hmem
    exact hInv S p' r' hmem

theorem engine_loopfree (f : Nat) : ∀ (act : Act) (net : BGPNetwork) (m : BGPRoute)
    (c o : String), LoopFreeExceptSelf net →
    (act = .doUpdate → asOfD net c ∉ m.as_path) →
    LoopFreeExceptSelf (engine f act net m c o) := by
  induction f with
  | zero =>
    intro act net m c o h _
    exact h
  | succ f ih =>
    intro act net m c o hInv hUpd
    cases act with
    | announce ty =>
      simp only [engine]
      split
      · exact inv_trace net _ hInv
      · rename_i hloop
        exact ih (handlerOf ty) _ m c o (inv_trace net _ hInv) (fun _ => hloop)
    | doUpdate =>
      have hU := hUpd rfl
      simp only [engine]
      split
      · refine foldl_pres LoopFreeExceptSelf _ _ ?_ _ ?_
        · intro s a _ hs
          exact ih (.announce a.2.2) s a.1 a.2.1 c hs (by intro hcon; cases hcon)
        · exact inv_putRoute net c m.pfx _ hInv hU
      · exact inv_putRoute net c m.pfx _ hInv hU
    | doWithdraw =>
      simp only [engine]
      split
      · exact hInv
      · split
        · split
          · split
            · exact inv_removeRoute net c m.pfx _ hInv
            · refine foldl_pres LoopFreeExceptSelf _ _ ?_ _ ?_
              · intro s a _ hs
                exact ih (.announce a.2.2) s a.1 a.2.1 c hs (by intro hcon; cases hcon)
              · exact inv_removeRoute net c m.pfx _ hInv
          · exact inv_removeRoute net c m.pfx _ hInv
        · exact hInv

theorem asOfD_of_routers {net n : BGPNetwork} (h : n.routers = net.routers)
    (R : String) : asOfD n R = asOfD net R := by
  unfold asOfD nodeOf
  rw [h]

theorem announce_pfx_go_loopfree :
    ∀ (lst : List (String × EdgeData)) (f : Nat) (router pfx : String)
      (route : BGPRoute) (net net' : BGPNetwork),
      LoopFreeExceptSelf net →
      route.pref = 1000 → route.router_id = -1 → route.src = "ebgp" →
      route.as_path = [asOfD net router] →
      announce_pfx_go f router pfx route lst net = some net' →
      LoopFreeExceptSelf net' := by
  intro lst
  induction lst with
  | nil =>
    intro f router pfx route net net' hInv _ _ _ _ heq
    simp [announce_pfx_go] at heq
    rw [← heq]
    exact hInv
  | cons nb rest ih =>
    intro f router pfx route net net' hInv h1 h2 h3 h4 heq
    obtain ⟨neigh, d⟩ := nb
    rcases hmed : d.med with _ | mv
    · rw [announce_pfx_go, hmed] at heq
      simp at heq
    · rw [announce_pfx_go, hmed] at heq
      simp only at heq
      set route1 : BGPRoute := { route with med := mv } with hroute1
      set net1 : BGPNetwork := { net with
        bgp_tables := aset net.bgp_tables router
          (aset (lookupTbl net router) pfx
            (((aget (lookupTbl net router) pfx).getD []).map
              (fun x => if x = route then route1 else x))) } with hnet1
      have hInv1 : LoopFreeExceptSelf net1 := by
        intro R p' r' hmem
        rw [hnet1, getTable_setEntry] at hmem
        have hgoal : asOfD net1 R = asOfD net R := rfl
        rw [hgoal]
        by_cases hcase : router = R ∧ pfx = p'
        · rw [if_pos hcase] at hmem
          rcases List.mem_map.mp hmem with ⟨x, hx, hxx⟩
          by_cases hxr : x = route
          · rw [if_pos hxr] at hxx
            subst hxx
            rw [← hcase.1]
            exact Or.inr ⟨h1, h2, h3, h4⟩
          · rw [if_neg hxr] at hxx
            subst hxx
            rw [← hcase.1]
            exact hInv router pfx x hx
        · rw [if_neg hcase] at hmem
          exact hInv R p' r' hmem
      set net2 : BGPNetwork := engine f (.announce .UPDATE) net1 route1 neigh router
        with hnet2
      have hInv2 : LoopFreeExceptSelf net2 :=
        engine_loopfree f _ net1 route1 neigh router hInv1 (by intro hcon; cases hcon)
      have hrouters : net2.routers = net.routers :=
        (engine_topo f _ net1 route1 neigh router).1
      refine ih f router pfx route1 net2 net' hInv2 h1 h2 h3 ?_ heq
      rw [hroute1]
      show route.as_path = [asOfD net2 router]
      rw [asOfD_of_routers hrouters]
      exact h4

/-- C1 (amended): loop freedom up to self-originated routes is an
invariant.  Delivering any message through `announce_route` (a receive of
an UPDATE or WITHDRAW) preserves it, and so does `announce_prefix`; the
excepted routes are exactly the self routes installed by origination,
whose path is the owner's own AS. -/
theorem C1_loop_freedom_amended :
    (∀ (f : Nat) (net : BGPNetwork) (m : BGPRoute) (c o : String)
      (ty : BGPMessage), LoopFreeExceptSelf net →
      LoopFreeExceptSelf (announce_route f net m c o ty)) ∧
    (∀ (f : Nat) (net : BGPNetwork) (R : String) (net' : BGPNetwork),
      LoopFreeExceptSelf net → announce_pfx f net R = some net' →
      LoopFreeExceptSelf net') := by
  constructor
  · intro f net m c o ty hInv
    exact engine_loopfree f _ net m c o hInv (by intro hcon; cases hcon)
  · intro f net R net' hInv heq
    rw [announce_pfx] at heq
    exact announce_pfx_go_loopfree _ f R _ _ _ net'
      (inv_setSelf net R _ _ hInv rfl rfl rfl rfl) rfl rfl rfl rfl heq

/-- Counterexample to C1 as stated: after `announce_prefix("r2")` on the
three-router topology, r2's own table for its own prefix holds the
self-originated route with `as_path = (2,)`, and r2's AS is 2 — the
originating router's own AS does appear in the path of a route of its own
RIB (exactly as the repository's own test fixtures record). -/
theorem C1_counterexample :
    (⟨"10.0.2.0", "10.0.2.2", [2], 1000, 0, -1, "ebgp"⟩ : BGPRoute) ∈
      getTable net3 "r2" "10.0.2.0" ∧
    asOfD net3 "r2" = 2 ∧
    (2 : Int) ∈ (⟨"10.0.2.0", "10.0.2.2", [2], 1000, 0, -1, "ebgp"⟩ :
      BGPRoute).as_path := by
  refine ⟨by decide, by decide, by decide⟩

/-! ## Membership facts about the decision process -/

theorem tiebreak_choice (net : BGPNetwork) (router : String) (b r : BGPRoute) :
    tiebreak net router b r = b ∨ tiebreak net router b r = r := by
  unfold tiebreak
  split
  · split
    · exact Or.inl rfl
    · exact Or.inr rfl
  · split
    · split
      · exact Or.inl rfl
      · exact Or.inr rfl
    · split
      · exact Or.inl rfl
      · exact Or.inr rfl

theorem finalChoice_mem (net : BGPNetwork) (router : String) (l : List BGPRoute)
    (r : BGPRoute) (h : finalChoice net router l = some r) : r ∈ l := by
  cases l with
  | nil => simp [finalChoice] at h
  | cons x t =>
    have hr : r = t.foldl (tiebreak net router) x := by
      simpa [finalChoice] using h.symm
    subst hr
    rcases foldl_choice_mem (tiebreak net router) (tiebreak_choice net router) t x with
      hm | hm
    · rw [hm]; exact List.mem_cons_self _ _
    · exact List.mem_cons_of_mem _ hm

theorem medInsert_mem (d : List (Int × List BGPRoute)) (k : Int) (s : BGPRoute)
    (e : Int × List BGPRoute) (he : e ∈ medInsert d k s) (x : BGPRoute)
    (hx : x ∈ e.2) : x = s ∨ ∃ e' ∈ d, x ∈ e'.2 := by
  rcases hag : aget d k with _ | l
  · have hred : medInsert d k s = d ++ [(k, [s])] := by rw [medInsert, hag]
    rw [hred] at he
    rcases List.mem_append.mp he with h | h
    · exact Or.inr ⟨e, h, hx⟩
    · simp at h
      subst h
      simp at hx
      exact Or.inl hx
  · cases l with
    | nil =>
      have hred : medInsert d k s = aset d k [s] := by rw [medInsert, hag]
      rw [hred] at he
      rcases mem_aset _ _ _ _ he with h | h
      · subst h
        simp at hx
        exact Or.inl hx
      · exact Or.inr ⟨e, h, hx⟩
    | cons x0 l' =>
      have hred : medInsert d k s =
          (if s.med < x0.med then aset d k [s]
           else if x0.med = s.med then aset d k ((x0 :: l') ++ [s]) else d) := by
        rw [medInsert, hag]
      rw [hred] at he
      by_cases hlt : s.med < x0.med
      · rw [if_pos hlt] at he
        rcases mem_aset _ _ _ _ he with h | h
        · subst h
          simp at hx
          exact Or.inl hx
        · exact Or.inr ⟨e, h, hx⟩
      · rw [if_neg hlt] at he
        by_cases heq : x0.med = s.med
        · rw [if_pos heq] at he
          rcases mem_aset _ _ _ _ he with h | h
          · subst h
            simp only at hx
            rcases List.mem_append.mp hx with h2 | h2
            · exact Or.inr ⟨(k, x0 :: l'), aget_mem _ _ _ hag, h2⟩
            · simp at h2
              exact Or.inl h2
          · exact Or.inr ⟨e, h, hx⟩
        · rw [if_neg heq] at he
          exact Or.inr ⟨e, he, hx⟩

theorem medGroups_sub (routes : List BGPRoute) (best : BGPRoute)
    (e : Int × List BGPRoute) (he : e ∈ medGroups routes best) (x : BGPRoute)
    (hx : x ∈ e.2) : x = best ∨ x ∈ routes := by
  have hgen : ∀ (l : List BGPRoute) (d : List (Int × List BGPRoute)),
      (∀ e' ∈ d, ∀ y ∈ e'.2, y = best ∨ y ∈ routes) →
      (∀ s ∈ l, s ∈ routes) →
      ∀ e' ∈ l.foldl
        (fun d r =>
          if r.pref ≠ best.pref ∨ r.as_path.length ≠ best.as_path.length then d
          else medInsert d r.as_path.headI r) d,
        ∀ y ∈ e'.2, y = best ∨ y ∈ routes := by
    intro l
    induction l with
    | nil =>
      intro d hd _ e' he' y hy
      exact hd e' he' y hy
    | cons s t ih =>
      intro d hd hl e' he' y hy
      simp only [List.foldl_cons] at he'
      refine ih _ ?_ (fun u hu => hl u (List.mem_cons_of_mem _ hu)) e' he' y hy
      intro e2 he2 z hz
      by_cases hc : s.pref ≠ best.pref ∨ s.as_path.length ≠ best.as_path.length
      · rw [if_pos hc] at he2
        exact hd e2 he2 z hz
      · rw [if_neg hc] at he2
        rcases medInsert_mem d _ s e2 he2 z hz with h | ⟨e3, he3, hz3⟩
        · rw [h]
          exact Or.inr (hl s (List.mem_cons_self _ _))
        · exact hd e3 he3 z hz3
  refine hgen routes [(best.as_path.headI, [best])] ?_ (fun s hs => hs) e he x hx
  intro e' he' y hy
  simp at he'
  subst he'
  simp at hy
  exact Or.inl hy

theorem decision_mem (net : BGPNetwork) (router q : String) (r : BGPRoute)
    (h : decision_process net router q = some r) : r ∈ getTable net router q := by
  rw [decision_process] at h
  rcases hfp : firstPassBest (getTable net router q) with _ | best
  · rw [hfp] at h
    simp at h
  · rw [hfp] at h
    simp only at h
    have hmem := finalChoice_mem net router _ r h
    rw [medSurvivors] at hmem
    rcases List.mem_flatten.mp hmem with ⟨l, hl, hrl⟩
    rcases List.mem_map.mp hl with ⟨e, he, hev⟩
    subst hev
    rcases medGroups_sub _ _ e he r hrl with hb | hm
    · subst hb
      exact (fp_best_props _ _ hfp).1
    · exact hm

/-! ## Shapes of the fan-out messages -/

theorem mem_updateSends (net : BGPNetwork) (m : BGPRoute) (c : String) (tr : String)
    (pb? : Option BGPRoute) (a cid np : Int) (s : Send)
    (hs : s ∈ updateSends net m c tr pb? a cid np) :
    (∃ pb, pb? = some pb ∧ s.1.pfx = pb.pfx ∧
      (s.1.as_path = pb.as_path ∨ s.1.as_path = a :: pb.as_path)) ∨
    (s.1.pfx = m.pfx ∧ (s.1.as_path = m.as_path ∨ s.1.as_path = a :: m.as_path)) := by
  rw [updateSends] at hs
  rcases List.mem_append.mp hs with hs | hs
  · rw [updateIbgpSends] at hs
    rcases List.mem_flatten.mp hs with ⟨l, hl, hsl⟩
    rcases List.mem_map.mp hl with ⟨rtr, _, hlv⟩
    rw [← hlv] at hsl
    rcases List.mem_append.mp hsl with h | h
    · rcases pb? with _ | pb
      · simp at h
      · by_cases hsrc : pb.src ≠ "ibgp"
        · simp only [if_pos hsrc] at h
          simp at h
          rw [h]
          exact Or.inl ⟨pb, rfl, rfl, Or.inl rfl⟩
        · simp only [if_neg hsrc] at h
          simp at h
    · by_cases hm : m.src ≠ "ibgp"
      · simp only [if_pos hm] at h
        simp at h
        rw [h]
        exact Or.inr ⟨rfl, Or.inl rfl⟩
      · simp only [if_neg hm] at h
        simp at h
  · rw [updateEbgpSends] at hs
    rcases List.mem_flatten.mp hs with ⟨l, hl, hsl⟩
    rcases List.mem_map.mp hl with ⟨nb, _, hlv⟩
    rw [← hlv] at hsl
    rw [updateEbgpSendsFor] at hsl
    by_cases hint : nb.2.type = "internal"
    · simp only [if_pos hint] at hsl
      simp at hsl
    · simp only [if_neg hint] at hsl
      rcases List.mem_append.mp hsl with h | h
      · rcases pb? with _ | pb
        · simp at h
        · simp at h
          rw [h]
          exact Or.inl ⟨pb, rfl, rfl, Or.inr rfl⟩
      · by_cases hg : tr ≠ "customer" ∧ nb.2.type ≠ "customer"
        · simp only [if_pos hg] at h
          simp at h
        · simp only [if_neg hg] at h
          simp at h
          rw [h]
          exact Or.inr ⟨rfl, Or.inr rfl⟩

theorem mem_withdrawSends (net : BGPNetwork) (best newBest : BGPRoute) (c : String)
    (a cid : Int) (s : Send) (hs : s ∈ withdrawSends net best newBest c a cid) :
    (s.1.pfx = best.pfx ∧
      (s.1.as_path = best.as_path ∨ s.1.as_path = a :: best.as_path)) ∨
    (s.1.pfx = newBest.pfx ∧
      (s.1.as_path = newBest.as_path ∨ s.1.as_path = a :: newBest.as_path)) := by
  rw [withdrawSends] at hs
  rcases List.mem_append.mp hs with hs | hs
  · rw [withdrawIbgpSends] at hs
    rcases List.mem_flatten.mp hs with ⟨l, hl, hsl⟩
    rcases List.mem_map.mp hl with ⟨rtr, _, hlv⟩
    rw [← hlv] at hsl
    rcases List.mem_append.mp hsl with h | h
    · by_cases hb : best.src ≠ "ibgp"
      · simp only [if_pos hb] at h
        simp at h
        rw [h]
        exact Or.inl ⟨rfl, Or.inl rfl⟩
      · simp only [if_neg hb] at h
        simp at h
    · by_cases hn : newBest.src ≠ "ibgp"
      · simp only [if_pos hn] at h
        simp at h
        rw [h]
        exact Or.inr ⟨rfl, Or.inl rfl⟩
      · simp only [if_neg hn] at h
        simp at h
  · rw [withdrawEbgpSends] at hs
    rcases List.mem_flatten.mp hs with ⟨l, hl, hsl⟩
    rcases List.mem_map.mp hl with ⟨nb, _, hlv⟩
    rw [← hlv] at hsl
    rw [withdrawEbgpSendsFor] at hsl
    by_cases hint : nb.2.type = "internal"
    · simp only [if_pos hint] at hsl
      simp at hsl
    · simp only [if_neg hint] at hsl
      rcases List.mem_append.mp hsl with h | h
      · simp at h
        rw [h]
        rw [withdrawToRemove]
        by_cases hc : best.src ≠ "ibgp" ∧ asNodeNames net a ≠ []
        · simp only [if_pos hc]
          simp
        · simp only [if_neg hc]
          simp
      · by_cases hg : newBest.pref ≠ 150 ∧ nb.2.type ≠ "customer"
        · simp only [if_pos hg] at h
          simp at h
        · simp only [if_neg hg] at h
          simp at h
          rw [h]
          exact Or.inr ⟨rfl, Or.inr rfl⟩

/-! ## The origination invariant through the engine -/

theorem getLast?_cons_ne {α : Type} (a : α) (l : List α) (h : l ≠ []) :
    (a :: l).getLast? = l.getLast? := by
  cases l with
  | nil => exact absurd rfl h
  | cons b t => exact List.getLast?_cons_cons

theorem tblinv_putRoute (p : String) (A : Int) (net : BGPNetwork) (c q : String)
    (r : BGPRoute) (hInv : TblInv p A net)
    (hr : r.pfx = q ∧ (q = p → r.as_path ≠ [] ∧ r.as_path.getLast? = some A)) :
    TblInv p A (putRoute net c q r) := by
  intro S q' r' hmem
  rw [getTable_putRoute] at hmem
  by_cases hcase : c = S ∧ q = q'
  · rw [if_pos hcase] at hmem
    by_cases hin : r ∈ getTable net c q
    · rw [if_pos hin] at hmem
      rw [← hcase.2]
      exact hInv c q r' hmem
    · rw [if_neg hin] at hmem
      rcases List.mem_append.mp hmem with h | h
      · rw [← hcase.2]
        exact hInv c q r' h
      · simp at h
        subst h
        rw [← hcase.2]
        exact hr
  · rw [if_neg hcase] at hmem
    exact hInv S q' r' hmem

theorem tblinv_removeRoute (p : String) (A : Int) (net : BGPNetwork) (c q : String)
    (r : BGPRoute) (hInv : TblInv p A net) :
    TblInv p A (removeRoute net c q r) := by
  intro S q' r' hmem
  rw [getTable_removeRoute] at hmem
  by_cases hcase : c = S ∧ q = q'
  · rw [if_pos hcase] at hmem
    rw [← hcase.2]
    exact hInv c q r' (List.mem_of_mem_erase hmem)
  · rw [if_neg hcase] at hmem
    exact hInv S q' r' hmem

theorem act_guard_announce (ty : BGPMessage) :
    (Act.announce ty = Act.doUpdate ∨ Act.announce ty = Act.doWithdraw) → False :=
  fun hcon => hcon.elim (fun h => Act.noConfusion h) (fun h => Act.noConfusion h)

theorem engine_c5 (p : String) (A : Int) (f : Nat) :
    ∀ (act : Act) (net : BGPNetwork) (m : BGPRoute) (c o : String),
      TblInv p A net → MsgOK p A m →
      ((act = .doUpdate ∨ act = .doWithdraw) → asOfD net c ≠ A) →
      TblInv p A (engine f act net m c o) ∧
      (∀ S, asOfD net S = A → getTable (engine f act net m c o) S p = getTable net S p) ∧
      (∃ Δ, (engine f act net m c o).trace = net.trace ++ Δ ∧
        ∀ e ∈ Δ, (∃ ty, act = .announce ty ∧ e = (m, c, o, ty)) ∨
          asOfD net e.2.2.1 ≠ A) := by
  induction f with
  | zero =>
    intro act net m c o hT _ _
    exact ⟨hT, fun S _ => rfl, ⟨[], (List.append_nil _).symm, by simp⟩⟩
  | succ f ih =>
    intro act net m c o hT hM hG
    obtain ⟨hMp, hMne, hMlast⟩ := hM
    have hAmem : A ∈ m.as_path := List.mem_of_mem_getLast? hMlast
    cases act with
    | announce ty =>
      simp only [engine]
      split
      · refine ⟨hT, fun S _ => rfl, ⟨[(m, c, o, ty)], by simp, ?_⟩⟩
        intro e he
        simp at he
        exact Or.inl ⟨ty, rfl, he⟩
      · rename_i hloop
        have hG' : asOfD net c ≠ A := fun hA => hloop (hA ▸ hAmem)
        obtain ⟨h1, h2, h3⟩ := ih (handlerOf ty)
          { net with trace := net.trace ++ [(m, c, o, ty)] } m c o hT
          ⟨hMp, hMne, hMlast⟩ (fun _ => hG')
        refine ⟨h1, h2, ?_⟩
        obtain ⟨Δ, hΔ, hΔe⟩ := h3
        refine ⟨(m, c, o, ty) :: Δ, ?_, ?_⟩
        · rw [hΔ]
          simp
        · intro e he
          rcases List.mem_cons.mp he with he | he
          · exact Or.inl ⟨ty, rfl, he⟩
          · rcases hΔe e he with ⟨ty', hcon, _⟩ | hns
            · cases ty <;> cases hcon
            · exact Or.inr hns
    | doUpdate =>
      have hG' := hG (Or.inl rfl)
      simp only [engine]
      have hstored : (⟨m.pfx, m.nexthop, m.as_path,
          prefFor (relTypeFor net m c o) m.pref, m.med, idOf net o, m.src⟩ :
            BGPRoute).pfx = m.pfx ∧
          (m.pfx = p → (⟨m.pfx, m.nexthop, m.as_path,
            prefFor (relTypeFor net m c o) m.pref, m.med, idOf net o, m.src⟩ :
              BGPRoute).as_path ≠ [] ∧
            (⟨m.pfx, m.nexthop, m.as_path, prefFor (relTypeFor net m c o) m.pref,
              m.med, idOf net o, m.src⟩ : BGPRoute).as_path.getLast? = some A) :=
        ⟨rfl, fun _ => ⟨hMne, hMlast⟩⟩
      have hT1 : TblInv p A (putRoute net c m.pfx
          (⟨m.pfx, m.nexthop, m.as_path, prefFor (relTypeFor net m c o) m.pref,
            m.med, idOf net o, m.src⟩ : BGPRoute)) :=
        tblinv_putRoute p A net c m.pfx _ hT hstored
      have hf1 : ∀ S, asOfD net S = A →
          getTable (putRoute net c m.pfx
            (⟨m.pfx, m.nexthop, m.as_path, prefFor (relTypeFor net m c o) m.pref,
              m.med, idOf net o, m.src⟩ : BGPRoute)) S p = getTable net S p := by
        intro S hS
        rw [getTable_putRoute, if_neg]
        intro hcon
        exact hG' (hcon.1 ▸ hS)
      split
      · -- the best changed: fan out
        rename_i hchange
        set net1 := putRoute net c m.pfx
          (⟨m.pfx, m.nexthop, m.as_path, prefFor (relTypeFor net m c o) m.pref,
            m.med, idOf net o, m.src⟩ : BGPRoute) with hnet1
        have hmsgok : ∀ s ∈ updateSends net1 m c (relTypeFor net m c o)
            (decision_process net c m.pfx) (asOfD net c) (idOf net c)
            (prefFor (relTypeFor net m c o) m.pref), MsgOK p A s.1 := by
          intro s hs
          rcases mem_updateSends _ _ _ _ _ _ _ _ s hs with
            ⟨pb, hpb, hpfx, hpath⟩ | ⟨hpfx, hpath⟩
          · have hpbmem := decision_mem net c m.pfx pb hpb
            obtain ⟨hpb1, hpb2⟩ := hT c m.pfx pb hpbmem
            obtain ⟨hpbne, hpblast⟩ := hpb2 hMp
            refine ⟨by rw [hpfx, hpb1, hMp], ?_, ?_⟩
            · rcases hpath with h | h <;> rw [h]
              · exact hpbne
              · simp
            · rcases hpath with h | h <;> rw [h]
              · exact hpblast
              · rw [getLast?_cons_ne _ _ hpbne]
                exact hpblast
          · refine ⟨by rw [hpfx, hMp], ?_, ?_⟩
            · rcases hpath with h | h <;> rw [h]
              · exact hMne
              · simp
            · rcases hpath with h | h <;> rw [h]
              · exact hMlast
              · rw [getLast?_cons_ne _ _ hMne]
                exact hMlast
        have hfold := foldl_pres
          (fun n => TblInv p A n ∧ n.routers = net.routers ∧
            (∀ S, asOfD net S = A → getTable n S p = getTable net S p) ∧
            (∃ Δ, n.trace = net.trace ++ Δ ∧
              ∀ e ∈ Δ, asOfD net e.2.2.1 ≠ A))
          (fun n s => engine f (.announce s.2.2) n s.1 s.2.1 c)
          (updateSends net1 m c (relTypeFor net m c o)
            (decision_process net c m.pfx) (asOfD net c) (idOf net c)
            (prefFor (relTypeFor net m c o) m.pref))
          ?_ net1 ⟨hT1, rfl, hf1, ⟨[], (List.append_nil _).symm, by simp⟩⟩
        · obtain ⟨k1, k2, k3, k4⟩ := hfold
          exact ⟨k1, k3, ⟨k4.choose, k4.choose_spec.1,
            fun e he => Or.inr (k4.choose_spec.2 e he)⟩⟩
        · intro n s hsmem hQ
          obtain ⟨hTn, hrn, hfn, ⟨Δn, hΔn, hΔne⟩⟩ := hQ
          obtain ⟨g1, g2, g3⟩ := ih (.announce s.2.2) n s.1 s.2.1 c hTn
            (hmsgok s hsmem) (fun hcon => absurd hcon (act_guard_announce _))
          have hrn' := (engine_topo f (.announce s.2.2) n s.1 s.2.1 c).1
          refine ⟨g1, hrn'.trans hrn, ?_, ?_⟩
          · intro S hS
            have hSn : asOfD n S = A := by rw [asOfD_of_routers hrn]; exact hS
            rw [g2 S hSn]
            exact hfn S hS
          · obtain ⟨Δe, hΔe, hΔee⟩ := g3
            refine ⟨Δn ++ Δe, by rw [hΔe, hΔn, List.append_assoc], ?_⟩
            intro e he
            rcases List.mem_append.mp he with he | he
            · exact hΔne e he
            · rcases hΔee e he with ⟨ty', _, hev⟩ | hns
              · rw [hev]
                exact hG'
              · rw [asOfD_of_routers hrn] at hns
                exact hns
      · exact ⟨hT1, hf1, ⟨[], (List.append_nil _).symm, by simp⟩⟩
    | doWithdraw =>
      have hG' := hG (Or.inr rfl)
      simp only [engine]
      split
      · exact ⟨hT, fun S _ => rfl, ⟨[], (List.append_nil _).symm, by simp⟩⟩
      · rename_i routes hroutes
        split
        · rename_i hmem
          have hT1 : TblInv p A (removeRoute net c m.pfx
              ({ m with pref := prefFor (relTypeFor net m c o) m.pref })) :=
            tblinv_removeRoute p A net c m.pfx _ hT
          have hf1 : ∀ S, asOfD net S = A →
              getTable (removeRoute net c m.pfx
                ({ m with pref := prefFor (relTypeFor net m c o) m.pref })) S p =
                getTable net S p := by
            intro S hS
            rw [getTable_removeRoute, if_neg]
            intro hcon
            exact hG' (hcon.1 ▸ hS)
          split
          · split
            · exact ⟨hT1, hf1, ⟨[], (List.append_nil _).symm, by simp⟩⟩
            · rename_i newBest hnewBest
              set net1 := removeRoute net c m.pfx
                ({ m with pref := prefFor (relTypeFor net m c o) m.pref })
                with hnet1
              have hmsgok : ∀ s ∈ withdrawSends net1
                  ({ m with pref := prefFor (relTypeFor net m c o) m.pref }) newBest
                  c (asOfD net c) (idOf net c), MsgOK p A s.1 := by
                intro s hs
                rcases mem_withdrawSends _ _ _ _ _ _ s hs with
                  ⟨hpfx, hpath⟩ | ⟨hpfx, hpath⟩
                · refine ⟨by rw [hpfx]; exact hMp, ?_, ?_⟩
                  · rcases hpath with h | h <;> rw [h]
                    · exact hMne
                    · simp
                  · rcases hpath with h | h <;> rw [h]
                    · exact hMlast
                    · rw [getLast?_cons_ne _ _ hMne]
                      exact hMlast
                · have hnbmem := decision_mem net1 c m.pfx newBest hnewBest
                  obtain ⟨hnb1, hnb2⟩ := hT1 c m.pfx newBest hnbmem
                  obtain ⟨hnbne, hnblast⟩ := hnb2 hMp
                  refine ⟨by rw [hpfx, hnb1, hMp], ?_, ?_⟩
                  · rcases hpath with h | h <;> rw [h]
                    · exact hnbne
                    · simp
                  · rcases hpath with h | h <;> rw [h]
                    · exact hnblast
                    · rw [getLast?_cons_ne _ _ hnbne]
                      exact hnblast
              have hfold := foldl_pres
                (fun n => TblInv p A n ∧ n.routers = net.routers ∧
                  (∀ S, asOfD net S = A → getTable n S p = getTable net S p) ∧
                  (∃ Δ, n.trace = net.trace ++ Δ ∧
                    ∀ e ∈ Δ, asOfD net e.2.2.1 ≠ A))
                (fun n s => engine f (.announce s.2.2) n s.1 s.2.1 c)
                (withdrawSends net1
                  ({ m with pref := prefFor (relTypeFor net m c o) m.pref }) newBest
                  c (asOfD net c) (idOf net c))
                ?_ net1 ⟨hT1, rfl, hf1, ⟨[], (List.append_nil _).symm, by simp⟩⟩
              · obtain ⟨k1, k2, k3, k4⟩ := hfold
                exact ⟨k1, k3, ⟨k4.choose, k4.choose_spec.1,
                  fun e he => Or.inr (k4.choose_spec.2 e he)⟩⟩
              · intro n s hsmem hQ
                obtain ⟨hTn, hrn, hfn, ⟨Δn, hΔn, hΔne⟩⟩ := hQ
                obtain ⟨g1, g2, g3⟩ := ih (.announce s.2.2) n s.1 s.2.1 c hTn
                  (hmsgok s hsmem) (fun hcon => absurd hcon (act_guard_announce _))
                have hrn' := (engine_topo f (.announce s.2.2) n s.1 s.2.1 c).1
                refine ⟨g1, hrn'.trans hrn, ?_, ?_⟩
                · intro S hS
                  have hSn : asOfD n S = A := by
                    rw [asOfD_of_routers hrn]; exact hS
                  rw [g2 S hSn]
                  exact hfn S hS
                · obtain ⟨Δe, hΔe, hΔee⟩ := g3
                  refine ⟨Δn ++ Δe, by rw [hΔe, hΔn, List.append_assoc], ?_⟩
                  intro e he
                  rcases List.mem_append.mp he with he | he
                  · exact hΔne e he
                  · rcases hΔee e he with ⟨ty', _, hev⟩ | hns
                    · rw [hev]
                      exact hG'
                    · rw [asOfD_of_routers hrn] at hns
                      exact hns
          · exact ⟨hT1, hf1, ⟨[], (List.append_nil _).symm, by simp⟩⟩
        · exact ⟨hT, fun S _ => rfl, ⟨[], (List.append_nil _).symm, by simp⟩⟩

/-! ## Vacuity of the invariants on freshly built topologies -/

theorem getTable_of_nil_tables (net : BGPNetwork)
    (h : ∀ e ∈ net.bgp_tables, e.2 = []) (S q : String) :
    getTable net S q = [] := by
  rw [getTable, lookupTbl]
  rcases hg : aget net.bgp_tables S with _ | tbl
  · rfl
  · have htbl : tbl = [] := h (S, tbl) (aget_mem _ _ _ hg)
    rw [htbl]
    rfl

theorem inv_of_nil_tables (net : BGPNetwork)
    (h : ∀ e ∈ net.bgp_tables, e.2 = []) : LoopFreeExceptSelf net := by
  intro R p r hmem
  rw [getTable_of_nil_tables net h] at hmem
  cases hmem

theorem tblinv_of_nil_tables (p : String) (A : Int) (net : BGPNetwork)
    (h : ∀ e ∈ net.bgp_tables, e.2 = []) : TblInv p A net := by
  intro S q r hmem
  rw [getTable_of_nil_tables net h] at hmem
  cases hmem

/-! ## The origination loop -/

theorem announce_pfx_go_c5 (p : String) (A : Int) (f : Nat) :
    ∀ (lst : List (String × EdgeData)) (route : BGPRoute) (R : String)
      (net net' : BGPNetwork),
      announce_pfx_go f R p route lst net = some net' →
      TblInv p A net → asOfD net R = A →
      route.pfx = p → route.as_path ≠ [] → route.as_path.getLast? = some A →
      getTable net R p = [route] →
      TblInv p A net' ∧
      getTable net' R p =
        [{ route with
            med := lst.foldl (fun a nb => nb.2.med.getD a) route.med }] ∧
      (∀ S, asOfD net S = A → S ≠ R → getTable net' S p = getTable net S p) ∧
      (∃ Δ, net'.trace = net.trace ++ Δ ∧
        ∀ e ∈ Δ, OriginMsg lst route R e ∨ asOfD net e.2.2.1 ≠ A) := by
  intro lst
  induction lst with
  | nil =>
    intro route R net net' heq hT hA hp hne hlast hTbl
    simp [announce_pfx_go] at heq
    subst heq
    exact ⟨hT, hTbl, fun S _ _ => rfl,
      ⟨[], (List.append_nil _).symm, by simp⟩⟩
  | cons nb rest ih =>
    intro route R net net' heq hT hA hp hne hlast hTbl
    obtain ⟨neigh, d⟩ := nb
    rcases hmed : d.med with _ | mv
    · rw [announce_pfx_go, hmed] at heq
      simp at heq
    · rw [announce_pfx_go, hmed] at heq
      simp only at heq
      set route1 : BGPRoute := { route with med := mv } with hroute1
      set net1 : BGPNetwork := { net with
        bgp_tables := aset net.bgp_tables R
          (aset (lookupTbl net R) p
            (((aget (lookupTbl net R) p).getD []).map
              (fun x => if x = route then route1 else x))) } with hnet1
      have hmap : ((aget (lookupTbl net R) p).getD []).map
          (fun x => if x = route then route1 else x) = [route1] := by
        have hrts : (aget (lookupTbl net R) p).getD [] = [route] := hTbl
        rw [hrts]
        simp
      have hT1 : TblInv p A net1 := by
        intro S q r hmem
        rw [hnet1, getTable_setEntry] at hmem
        by_cases hcase : R = S ∧ p = q
        · rw [if_pos hcase, hmap] at hmem
          simp at hmem
          subst hmem
          exact ⟨hcase.2 ▸ hp, fun _ => ⟨hne, hlast⟩⟩
        · rw [if_neg hcase] at hmem
          exact hT S q r hmem
      have hTbl1 : getTable net1 R p = [route1] := by
        rw [hnet1, getTable_setEntry, if_pos ⟨rfl, rfl⟩, hmap]
      have hA1 : asOfD net1 R = A := hA
      set net2 : BGPNetwork := engine f (.announce .UPDATE) net1 route1 neigh R
        with hnet2
      obtain ⟨hT2, hfr2, ⟨Δ1, hΔ1, hΔ1e⟩⟩ :=
        engine_c5 p A f (.announce .UPDATE) net1 route1 neigh R hT1
          ⟨hp, hne, hlast⟩ (fun hcon => absurd hcon (act_guard_announce _))
      have hrouters2 : net2.routers = net.routers :=
        (engine_topo f (.announce .UPDATE) net1 route1 neigh R).1
      have hA2 : asOfD net2 R = A := by
        rw [asOfD_of_routers hrouters2]
        exact hA
      have hTbl2 : getTable net2 R p = [route1] := by
        rw [hfr2 R hA1]
        exact hTbl1
      obtain ⟨hT', hTbl', hfr', ⟨Δ2, hΔ2, hΔ2e⟩⟩ :=
        ih route1 R net2 net' heq hT2 hA2 hp hne hlast hTbl2
      refine ⟨hT', ?_, ?_, ?_⟩
      · rw [hTbl']
        simp only [List.foldl_cons, hmed, Option.getD_some]
      · intro S hS hSR
        have hS1 : asOfD net1 S = A := hS
        have hS2 : asOfD net2 S = A := by
          rw [asOfD_of_routers hrouters2]
          exact hS
        rw [hfr' S hS2 hSR, hfr2 S hS1, hnet1, getTable_setEntry,
          if_neg (show ¬(R = S ∧ p = p) from fun hcon => hSR hcon.1.symm)]
      · refine ⟨Δ1 ++ Δ2, ?_, ?_⟩
        · rw [hΔ2, hΔ1, List.append_assoc]
        · intro e he
          rcases List.mem_append.mp he with he | he
          · rcases hΔ1e e he with ⟨ty, hty, hev⟩ | hns
            · left
              injection hty with hty'
              subst hty'
              exact ⟨(neigh, d), List.mem_cons_self _ _, mv, hmed, hev⟩
            · exact Or.inr hns
          · rcases hΔ2e e he with horig | hns
            · left
              obtain ⟨nb', hnb', mv', hmv', hev⟩ := horig
              exact ⟨nb', List.mem_cons_of_mem _ hnb', mv', hmv', hev⟩
            · right
              intro hcon
              exact hns (by rw [asOfD_of_routers hrouters2]; exact hcon)

theorem some_getD {α : Type} (o : Option α) (d : α) (h : o.isSome = true) :
    o = some (o.getD d) := by
  cases o with
  | none => cases h
  | some a => rfl

/-- C5 (amended): when `announce_prefix(R)` returns (every neighbour of
`R` carries a `med` attribute, i.e. is external), `R`'s table for its
prefix holds exactly one route — the self route, whose `med` field has
however been mutated in place by the neighbour loop to the med of the
*last* edge announced over (the stored set holds a reference to the very
object whose `med` line 218 rewrites), so it is `0` only when the last
edge's med is; every propagation send by a router of `R`'s own AS is one
of the origination UPDATEs, each carrying its edge's med; and no other
router of `R`'s AS changes its table for the prefix. -/
theorem C5_origination_amended :
    ∀ (f : Nat) (net : BGPNetwork) (R : String) (net' : BGPNetwork),
      TblInv (pfxOf net R) (asOfD net R) net →
      announce_pfx f net R = some net' →
      getTable net' R (pfxOf net R) =
        [{ selfRouteOf net R with
            med := (adjOf net R).foldl (fun a nb => nb.2.med.getD a) 0 }] ∧
      (∀ S, asOfD net S = asOfD net R → S ≠ R →
        getTable net' S (pfxOf net R) = getTable net S (pfxOf net R)) ∧
      (∃ Δ, net'.trace = net.trace ++ Δ ∧
        ∀ e ∈ Δ, OriginMsg (adjOf net R) (selfRouteOf net R) R e ∨
          asOfD net e.2.2.1 ≠ asOfD net R) := by
  intro f net R net' hT heq
  have hT0 : TblInv (pfxOf net R) (asOfD net R)
      { net with
        bgp_tables := aset net.bgp_tables R
          (aset (lookupTbl net R) (pfxOf net R) [selfRouteOf net R]) } := by
    intro S q r hmem
    rw [getTable_setEntry] at hmem
    by_cases hcase : R = S ∧ pfxOf net R = q
    · rw [if_pos hcase] at hmem
      simp at hmem
      subst hmem
      exact ⟨hcase.2 ▸ rfl, fun _ => by simp [selfRouteOf]⟩
    · rw [if_neg hcase] at hmem
      exact hT S q r hmem
  have hTbl0 : getTable
      { net with
        bgp_tables := aset net.bgp_tables R
          (aset (lookupTbl net R) (pfxOf net R) [selfRouteOf net R]) }
      R (pfxOf net R) = [selfRouteOf net R] := by
    rw [getTable_setEntry, if_pos ⟨rfl, rfl⟩]
  obtain ⟨hT', hTbl', hfr', htr'⟩ :=
    announce_pfx_go_c5 (pfxOf net R) (asOfD net R) f (adjOf net R)
      (selfRouteOf net R) R
      { net with
        bgp_tables := aset net.bgp_tables R
          (aset (lookupTbl net R) (pfxOf net R) [selfRouteOf net R]) } net'
      heq hT0 rfl rfl (by simp [selfRouteOf]) (by simp [selfRouteOf]) hTbl0
  refine ⟨hTbl', ?_, htr'⟩
  intro S hS hSR
  rw [hfr' S hS hSR, getTable_setEntry,
    if_neg (show ¬(R = S ∧ pfxOf net R = pfxOf net R) from
      fun hcon => hSR hcon.1.symm)]

/-- Counterexample to C5 as stated: on the two-router topology whose
provider-customer edge carries `med = 5`, `announce_prefix("r2")`
terminates with r2's table for `10.0.2.0` holding the self route with
`med = 5`, not the claimed pristine self route with `med = 0` — the loop
of `announce_prefix` mutated the aliased stored object. -/
theorem C5_counterexample :
    announce_pfx 20 bld2m5 "r2" = some net2m5 ∧
    getTable net2m5 "r2" "10.0.2.0" =
      [⟨"10.0.2.0", "10.0.2.2", [2], 1000, 5, -1, "ebgp"⟩] ∧
    selfRouteOf bld2m5 "r2" =
      ⟨"10.0.2.0", "10.0.2.2", [2], 1000, 0, -1, "ebgp"⟩ ∧
    (⟨"10.0.2.0", "10.0.2.2", [2], 1000, 5, -1, "ebgp"⟩ : BGPRoute) ≠
      selfRouteOf bld2m5 "r2" :=
  ⟨some_getD _ emptyNet (by decide), by decide, by decide, by decide⟩

theorem C5_witness :
    getTable net2 "r2" (pfxOf bld2 "r2") =
      [{ selfRouteOf bld2 "r2" with
          med := (adjOf bld2 "r2").foldl (fun a nb => nb.2.med.getD a) 0 }] :=
  (C5_origination_amended 20 bld2 "r2" net2
    (tblinv_of_nil_tables (pfxOf bld2 "r2") (asOfD bld2 "r2") bld2 (by decide))
    (some_getD _ emptyNet (by decide))).1

theorem C1_witness : LoopFreeExceptSelf net3 :=
  C1_loop_freedom_amended.2 40 bld3 "r2" net3
    (inv_of_nil_tables bld3 (by decide))
    (some_getD _ emptyNet (by decide))

end BGPSim
